import Mathlib

/-!
Verification development for the GitHub-backed dashboard state store
(serverless function `api/state`).

The embedding models:
* JSON values (`Json`), `JSON.stringify(x, null, 2)` (`Json.printVal`) and
  `JSON.parse` (`parseJson`).  JSON numbers are modelled as integers (the
  store treats state as opaque, and number formatting questions are
  orthogonal to every property considered here).
* UTF-8 / base64 transcoding (`toBase64`, `fromBase64`) as performed by
  `Buffer.from(str,'utf8').toString('base64')` and its inverse.
* The GitHub contents API (`ghGetFile`, `ghPutFile`, `ghDeleteFile`) over an
  abstract store mapping paths to files, together with a schedule of
  injected network outcomes so that backend failures are expressible.
* The manifest helpers (`loadManifest`, `saveManifest`, `safeDashId`) and
  the request handler (`handle`), translated branch for branch from the
  source.
-/

/-- JSON values.  Object members are kept in insertion order; numbers are
modelled as integers. -/
inductive Json where
  | null : Json
  | bool : Bool → Json
  | num : Int → Json
  | str : String → Json
  | arr : List Json → Json
  | obj : List (String × Json) → Json
deriving Repr

/-! ### Decidable equality for `Json` (nested inductive, so written by hand) -/

mutual

def Json.beq : Json → Json → Bool
  | .null, .null => true
  | .bool a, .bool b => a == b
  | .num a, .num b => a == b
  | .str a, .str b => a == b
  | .arr a, .arr b => Json.beqList a b
  | .obj a, .obj b => Json.beqMembers a b
  | _, _ => false

def Json.beqList : List Json → List Json → Bool
  | [], [] => true
  | a :: as, b :: bs => Json.beq a b && Json.beqList as bs
  | _, _ => false

def Json.beqMembers : List (String × Json) → List (String × Json) → Bool
  | [], [] => true
  | (k, v) :: as, (k', v') :: bs => k == k' && Json.beq v v' && Json.beqMembers as bs
  | _, _ => false

end

instance : BEq Json := ⟨Json.beq⟩

mutual

theorem Json.beq_iff : ∀ a b : Json, Json.beq a b = true ↔ a = b
  | .null, b => by cases b <;> simp [Json.beq]
  | .bool x, b => by cases b <;> simp [Json.beq]
  | .num x, b => by cases b <;> simp [Json.beq]
  | .str x, b => by cases b <;> simp [Json.beq]
  | .arr xs, b => by
      cases b <;> simp [Json.beq]
      exact Json.beqList_iff xs _
  | .obj ms, b => by
      cases b <;> simp [Json.beq]
      exact Json.beqMembers_iff ms _

theorem Json.beqList_iff : ∀ a b : List Json, Json.beqList a b = true ↔ a = b
  | [], b => by cases b <;> simp [Json.beqList]
  | x :: xs, b => by
      cases b with
      | nil => simp [Json.beqList]
      | cons y ys =>
        simp only [Json.beqList, Bool.and_eq_true, Json.beq_iff, Json.beqList_iff, List.cons.injEq]

theorem Json.beqMembers_iff : ∀ a b : List (String × Json), Json.beqMembers a b = true ↔ a = b
  | [], b => by cases b <;> simp [Json.beqMembers]
  | (k, v) :: xs, b => by
      cases b with
      | nil => simp [Json.beqMembers]
      | cons y ys =>
        obtain ⟨k', v'⟩ := y
        simp only [Json.beqMembers, Bool.and_eq_true, Json.beq_iff, Json.beqMembers_iff,
          List.cons.injEq, Prod.mk.injEq, beq_iff_eq, and_assoc]

end

instance : DecidableEq Json := fun a b =>
  decidable_of_iff (Json.beq a b = true) (Json.beq_iff a b)

/-! ### JS truthiness and property access -/

/-- JS truthiness of a JSON value (`null`, `false`, `0`, `""` are falsy). -/
def Json.truthy : Json → Bool
  | .null => false
  | .bool b => b
  | .num n => n != 0
  | .str s => s ≠ ""
  | .arr _ => true
  | .obj _ => true

/-- Own-property lookup: `x[k]` for an object, `undefined` (`none`) otherwise. -/
def Json.getProp : Json → String → Option Json
  | .obj fields, k => fields.lookup k
  | _, _ => none

/-! ### Decimal digits -/

def digitChar (n : Nat) : Char :=
  (List.getD ['0','1','2','3','4','5','6','7','8','9'] n '0')

def isDigitChar (c : Char) : Bool := 48 ≤ c.toNat && c.toNat ≤ 57

/-- Decimal digits of a natural number, most significant first. -/
def natDigits (n : Nat) : List Char :=
  if h : n < 10 then [digitChar n]
  else natDigits (n / 10) ++ [digitChar (n % 10)]
termination_by n
decreasing_by exact Nat.div_lt_self (by omega) (by omega)

/-- Decimal rendering of an integer (as produced by `JSON.stringify`). -/
def intChars (i : Int) : List Char :=
  if i < 0 then '-' :: natDigits (i.natAbs) else natDigits i.natAbs

def digitVal (c : Char) : Nat := c.toNat - '0'.toNat

def digitsToNat (ds : List Char) : Nat :=
  ds.foldl (fun a c => a * 10 + digitVal c) 0

theorem digitsToNat_append (a b : List Char) :
    digitsToNat (a ++ b) = b.foldl (fun a c => a * 10 + digitVal c) (digitsToNat a) := by
  simp [digitsToNat, List.foldl_append]

theorem digitChar_isDigit : ∀ n < 10, isDigitChar (digitChar n) = true := by decide

theorem digitVal_digitChar : ∀ n < 10, digitVal (digitChar n) = n := by decide

theorem natDigits_all_digits (n : Nat) : ∀ c ∈ natDigits n, isDigitChar c = true := by
  induction n using Nat.strong_induction_on with
  | _ n ih =>
    intro c hc
    rw [natDigits] at hc
    split at hc
    · simp at hc
      subst hc
      exact digitChar_isDigit n (by omega)
    · rename_i h
      rcases List.mem_append.mp hc with h1 | h1
      · exact ih (n / 10) (Nat.div_lt_self (by omega) (by omega)) c h1
      · simp at h1
        subst h1
        exact digitChar_isDigit _ (Nat.mod_lt _ (by omega))

theorem natDigits_ne_nil (n : Nat) : natDigits n ≠ [] := by
  rw [natDigits]
  split
  · simp
  · simp

theorem digitsToNat_natDigits (n : Nat) : digitsToNat (natDigits n) = n := by
  induction n using Nat.strong_induction_on with
  | _ n ih =>
    rw [natDigits]
    split
    · rename_i h
      simp [digitsToNat, digitVal_digitChar n h]
    · rename_i h
      rw [digitsToNat_append, ih (n / 10) (Nat.div_lt_self (by omega) (by omega))]
      simp [digitVal_digitChar (n % 10) (Nat.mod_lt _ (by omega))]
      omega

/-! ### String escaping (`JSON.stringify` string rendering) -/

def hexDigit (n : Nat) : Char :=
  (List.getD ('0' :: '1' :: ['2','3','4','5','6','7'] ++ '8' :: '9' :: ['a','b','c','d','e','f']) n '0')

def hexVal (c : Char) : Option Nat :=
  if 48 ≤ c.toNat ∧ c.toNat ≤ 57 then some (c.toNat - 48)
  else if 97 ≤ c.toNat ∧ c.toNat ≤ 102 then some (c.toNat - 97 + 10)
  else if 65 ≤ c.toNat ∧ c.toNat ≤ 70 then some (c.toNat - 65 + 10)
  else none

/-- Escape one character as inside a JSON string literal produced by
`JSON.stringify`: `"`, `\`, the named control escapes, and `\u00XX` for the
remaining control characters. -/
def escChar (c : Char) : List Char :=
  if c = '"' then ['\\', '"']
  else if c = '\\' then ['\\', '\\']
  else if c = '\n' then ['\\', 'n']
  else if c = '\t' then ['\\', 't']
  else if c = '\r' then ['\\', 'r']
  else if c = '\x08' then ['\\', 'b']
  else if c = '\x0c' then ['\\', 'f']
  else if c.toNat < 0x20 then
    ['\\', 'u', '0', '0', hexDigit (c.toNat / 16), hexDigit (c.toNat % 16)]
  else [c]

def escBody (cs : List Char) : List Char := cs.flatMap escChar

/-- A JSON string literal: quote, escaped body, quote. -/
def strLit (s : String) : List Char := '"' :: escBody s.data ++ ['"']

/-! ### Pretty printer: `JSON.stringify(x, null, 2)` -/

def indentStr (n : Nat) : List Char := List.replicate n ' '

mutual

/-- The characters of `JSON.stringify(x, null, 2)` when the current nesting
prefix is `ind` spaces wide. -/
def Json.printVal (ind : Nat) : Json → List Char
  | .null => ['n','u','l','l']
  | .bool true => 't' :: 'r' :: ['u','e']
  | .bool false => ['f','a','l','s','e']
  | .num i => intChars i
  | .str s => strLit s
  | .arr [] => ['[', ']']
  | .arr (x :: xs) =>
      '[' :: '\n' :: Json.printItems (ind + 2) x xs ++
        '\n' :: indentStr ind ++ [']']
  | .obj [] => ['{', '\x7d']
  | .obj (m :: ms) =>
      '\x7b' :: '\n' :: Json.printMembers (ind + 2) m ms ++
        '\n' :: indentStr ind ++ ['\x7d']
termination_by x => sizeOf x

/-- Array items, each on its own indented line, separated by `",\n"`. -/
def Json.printItems (ind : Nat) (x : Json) : List Json → List Char
  | [] => indentStr ind ++ Json.printVal ind x
  | y :: ys =>
      indentStr ind ++ Json.printVal ind x ++ ',' :: '\n' :: Json.printItems ind y ys
termination_by ys => 1 + sizeOf x + sizeOf ys

/-- Object members, `"key": value`, separated by `",\n"`. -/
def Json.printMembers (ind : Nat) (m : String × Json) : List (String × Json) → List Char
  | [] => indentStr ind ++ strLit m.1 ++ ':' :: ' ' :: Json.printVal ind m.2
  | n :: ns =>
      indentStr ind ++ strLit m.1 ++ ':' :: ' ' :: Json.printVal ind m.2 ++
        ',' :: '\n' :: Json.printMembers ind n ns
termination_by ns => 1 + sizeOf m + sizeOf ns
decreasing_by
  all_goals simp_wf
  all_goals cases m
  all_goals simp
  all_goals omega

end

/-- `JSON.stringify(x, null, 2)` as a string. -/
def Json.stringify (x : Json) : String := String.mk (Json.printVal 0 x)

/-! ### Fuel measure for the parser -/

mutual

def Json.fsize : Json → Nat
  | .null => 1
  | .bool _ => 1
  | .num _ => 1
  | .str _ => 1
  | .arr xs => 1 + Json.fsizeItems xs
  | .obj ms => 1 + Json.fsizeMembers ms

def Json.fsizeItems : List Json → Nat
  | [] => 1
  | x :: xs => 1 + Json.fsize x + Json.fsizeItems xs

def Json.fsizeMembers : List (String × Json) → Nat
  | [] => 1
  | m :: ms => 1 + Json.fsize m.2 + Json.fsizeMembers ms

end

theorem Json.fsize_pos (x : Json) : 1 ≤ x.fsize := by
  cases x <;> simp [Json.fsize]

theorem Json.fsizeItems_pos (xs : List Json) : 1 ≤ Json.fsizeItems xs := by
  cases xs <;> simp [Json.fsizeItems] <;> omega

theorem Json.fsizeMembers_pos (ms : List (String × Json)) : 1 ≤ Json.fsizeMembers ms := by
  cases ms <;> simp [Json.fsizeMembers] <;> omega

/-! ### Parser: `JSON.parse` -/

def isWsChar (c : Char) : Bool := c = ' ' || c = '\n' || c = '\t' || c = '\r'

def skipWs (cs : List Char) : List Char := cs.dropWhile isWsChar

/-- Decode one escape sequence character (the character after `\`),
excluding the `u` form. -/
def unescChar (e : Char) : Option Char :=
  if e = '"' then some '"'
  else if e = '\\' then some '\\'
  else if e = '/' then some '/'
  else if e = 'n' then some '\n'
  else if e = 't' then some '\t'
  else if e = 'r' then some '\r'
  else if e = 'b' then some '\x08'
  else if e = 'f' then some '\x0c'
  else none

/-- Parse the body of a string literal (the opening quote has been
consumed), handling the escape sequences of JSON. -/
def parseStrChars : List Char → Option (List Char × List Char)
  | [] => none
  | c :: rest =>
      if c = '"' then some ([], rest)
      else if c = '\\' then
        match rest with
        | 'u' :: h1 :: h2 :: h3 :: h4 :: rest2 =>
            match hexVal h1, hexVal h2, hexVal h3, hexVal h4 with
            | some a, some b, some c', some d =>
                let n := ((a * 16 + b) * 16 + c') * 16 + d
                if Nat.isValidChar n then
                  (parseStrChars rest2).map (fun p => (Char.ofNat n :: p.1, p.2))
                else none
            | _, _, _, _ => none
        | e :: rest2 =>
            match unescChar e with
            | some c' => (parseStrChars rest2).map (fun p => (c' :: p.1, p.2))
            | none => none
        | [] => none
      else if c.toNat < 0x20 then none
      else (parseStrChars rest).map (fun p => (c :: p.1, p.2))

/-- Parse a (possibly negative) integer literal. -/
def parseNum : List Char → Option (Json × List Char)
  | [] => none
  | c :: rest =>
      if c = '-' then
        let p := rest.span isDigitChar
        if p.1 = [] then none
        else some (.num (-(digitsToNat p.1 : Int)), p.2)
      else
        let p := (c :: rest).span isDigitChar
        if p.1 = [] then none
        else some (.num (digitsToNat p.1 : Int), p.2)

mutual

/-- Fueled JSON value parser: skips leading whitespace, then parses one
value, returning it with the unconsumed remainder. -/
def parseVal : Nat → List Char → Option (Json × List Char)
  | 0, _ => none
  | fuel + 1, cs =>
    match skipWs cs with
    | [] => none
    | c :: rest =>
      if c = 'n' then
        match rest with
        | 'u' :: 'l' :: 'l' :: r => some (.null, r)
        | _ => none
      else if c = 't' then
        match rest with
        | 'r' :: 'u' :: 'e' :: r => some (.bool true, r)
        | _ => none
      else if c = 'f' then
        match rest with
        | 'a' :: 'l' :: 's' :: 'e' :: r => some (.bool false, r)
        | _ => none
      else if c = '"' then
        (parseStrChars rest).map (fun p => (.str (String.mk p.1), p.2))
      else if c = '[' then parseItems fuel rest
      else if c = '\x7b' then parseMembers fuel rest
      else if c = '-' || isDigitChar c then parseNum (c :: rest)
      else none

/-- After `[`: parse the items of an array (possibly none) up to `]`. -/
def parseItems : Nat → List Char → Option (Json × List Char)
  | 0, _ => none
  | fuel + 1, cs =>
    match skipWs cs with
    | [] => none
    | c :: rest =>
      if c = ']' then some (.arr [], rest)
      else
        match parseVal fuel (c :: rest) with
        | none => none
        | some (v, cs2) =>
          match parseItemsRest fuel v cs2 with
          | none => none
          | some (vs, rest) => some (.arr vs, rest)

/-- After one array item: `,` and more items, or `]`. -/
def parseItemsRest : Nat → Json → List Char → Option (List Json × List Char)
  | 0, _, _ => none
  | fuel + 1, v, cs =>
    match skipWs cs with
    | [] => none
    | c :: cs2 =>
      if c = ',' then
        match parseVal fuel cs2 with
        | none => none
        | some (w, cs3) =>
          match parseItemsRest fuel w cs3 with
          | none => none
          | some (ws, rest) => some (v :: ws, rest)
      else if c = ']' then some ([v], cs2)
      else none

/-- After `{`: parse the members of an object (possibly none) up to `}`. -/
def parseMembers : Nat → List Char → Option (Json × List Char)
  | 0, _ => none
  | fuel + 1, cs =>
    match skipWs cs with
    | [] => none
    | c :: rest =>
      if c = '\x7d' then some (.obj [], rest)
      else
        match parseMember fuel (c :: rest) with
        | none => none
        | some (m, cs2) =>
          match parseMembersRest fuel m cs2 with
          | none => none
          | some (ms, rest) => some (.obj ms, rest)

/-- One `"key": value` member (leading whitespace already skipped or not,
the key parser skips it itself). -/
def parseMember : Nat → List Char → Option ((String × Json) × List Char)
  | 0, _ => none
  | fuel + 1, cs =>
    match skipWs cs with
    | [] => none
    | c :: rest =>
      if c = '"' then
        match parseStrChars rest with
        | none => none
        | some (k, cs2) =>
          match skipWs cs2 with
          | [] => none
          | c2 :: cs3 =>
            if c2 = ':' then
              match parseVal fuel cs3 with
              | none => none
              | some (v, cs4) => some ((String.mk k, v), cs4)
            else none
      else none

/-- After one member: `,` and more members, or `}`. -/
def parseMembersRest : Nat → (String × Json) → List Char →
    Option (List (String × Json) × List Char)
  | 0, _, _ => none
  | fuel + 1, m, cs =>
    match skipWs cs with
    | [] => none
    | c :: cs2 =>
      if c = ',' then
        match parseMember fuel cs2 with
        | none => none
        | some (m2, cs3) =>
          match parseMembersRest fuel m2 cs3 with
          | none => none
          | some (ms, rest) => some (m :: ms, rest)
      else if c = '\x7d' then some ([m], cs2)
      else none

end

/-- `JSON.parse(s)`: parse one value, allowing surrounding whitespace and
requiring the whole input to be consumed.  `none` models a thrown
`SyntaxError`. -/
def parseJson (s : String) : Option Json :=
  match parseVal (2 * s.data.length + 2) s.data with
  | some (x, rest) => if skipWs rest = [] then some x else none
  | none => none

/-! ### Round-trip: `parseJson (Json.stringify x) = some x` -/

theorem char_eq_toNat {c d : Char} (h : c = d) : c.toNat = d.toNat := by rw [h]

theorem isWsChar_false_of_toNat {c : Char}
    (h : c.toNat ≠ 32 ∧ c.toNat ≠ 10 ∧ c.toNat ≠ 9 ∧ c.toNat ≠ 13) :
    isWsChar c = false := by
  unfold isWsChar
  have h1 : c ≠ ' ' := fun hc => h.1 (char_eq_toNat hc)
  have h2 : c ≠ '\n' := fun hc => h.2.1 (char_eq_toNat hc)
  have h3 : c ≠ '\t' := fun hc => h.2.2.1 (char_eq_toNat hc)
  have h4 : c ≠ '\r' := fun hc => h.2.2.2 (char_eq_toNat hc)
  simp [h1, h2, h3, h4]

theorem skipWs_cons_false {c : Char} (h : isWsChar c = false) (l : List Char) :
    skipWs (c :: l) = c :: l := by
  simp [skipWs, List.dropWhile, h]

theorem skipWs_append_ws {pre : List Char} (h : ∀ c ∈ pre, isWsChar c = true)
    (l : List Char) : skipWs (pre ++ l) = skipWs l := by
  induction pre with
  | nil => simp
  | cons c cs ih =>
    have hc : isWsChar c = true := h c (by simp)
    simp only [List.cons_append, skipWs, List.dropWhile, hc]
    exact ih (fun d hd => h d (by simp [hd]))

theorem indentStr_ws (n : Nat) : ∀ c ∈ indentStr n, isWsChar c = true := by
  intro c hc
  simp [indentStr, List.eq_of_mem_replicate hc, isWsChar]

/-- Digits are not whitespace, brackets, separators or value keywords. -/
theorem digit_facts {c : Char} (h : isDigitChar c = true) :
    isWsChar c = false ∧ c ≠ 'n' ∧ c ≠ 't' ∧ c ≠ 'f' ∧ c ≠ '"' ∧ c ≠ '[' ∧
      c ≠ '\x7b' ∧ c ≠ ']' ∧ c ≠ '\x7d' ∧ c ≠ '-' ∧ c ≠ ',' := by
  simp only [isDigitChar, Bool.and_eq_true, decide_eq_true_eq] at h
  refine ⟨isWsChar_false_of_toNat (by omega), ?_, ?_, ?_, ?_, ?_, ?_, ?_, ?_, ?_, ?_⟩ <;>
    exact fun hc => by have := char_eq_toNat hc; simp at this; omega

/-- Heads after which a printed value is always parsed to exactly itself:
empty, or not a digit continuation. -/
def delimOk : List Char → Prop
  | [] => True
  | c :: _ => isDigitChar c = false

theorem takeWhile_digits_append {l r : List Char} (hl : ∀ c ∈ l, isDigitChar c = true)
    (hr : delimOk r) : (l ++ r).takeWhile isDigitChar = l := by
  induction l with
  | nil =>
    cases r with
    | nil => simp
    | cons c r' =>
      simp only [delimOk] at hr
      simp [List.takeWhile, hr]
  | cons c l' ih =>
    have hc : isDigitChar c = true := hl c (by simp)
    simp [List.takeWhile, hc, ih (fun d hd => hl d (by simp [hd]))]

theorem dropWhile_digits_append {l r : List Char} (hl : ∀ c ∈ l, isDigitChar c = true)
    (hr : delimOk r) : (l ++ r).dropWhile isDigitChar = r := by
  induction l with
  | nil =>
    cases r with
    | nil => simp
    | cons c r' =>
      simp only [delimOk] at hr
      simp [List.dropWhile, hr]
  | cons c l' ih =>
    have hc : isDigitChar c = true := hl c (by simp)
    simp [List.dropWhile, hc, ih (fun d hd => hl d (by simp [hd]))]

theorem span_digits_append {l r : List Char} (hl : ∀ c ∈ l, isDigitChar c = true)
    (hr : delimOk r) : (l ++ r).span isDigitChar = (l, r) := by
  rw [List.span_eq_take_drop, takeWhile_digits_append hl hr, dropWhile_digits_append hl hr]

theorem parseNum_natDigits (n : Nat) (rest : List Char) (hr : delimOk rest) :
    parseNum (natDigits n ++ rest) = some (.num (n : Int), rest) := by
  obtain ⟨d, ds, hd⟩ : ∃ d ds, natDigits n = d :: ds := by
    cases h : natDigits n with
    | nil => exact absurd h (natDigits_ne_nil n)
    | cons d ds => exact ⟨d, ds, rfl⟩
  have hdig : isDigitChar d = true := natDigits_all_digits n d (by rw [hd]; simp)
  have hne : d ≠ '-' := (digit_facts hdig).2.2.2.2.2.2.2.2.2.1
  have hspan : ((d :: ds) ++ rest).span isDigitChar = (d :: ds, rest) := by
    apply span_digits_append _ hr
    intro c hc
    exact natDigits_all_digits n c (by rw [hd]; exact hc)
  have hsum : digitsToNat (d :: ds) = n := by rw [← hd]; exact digitsToNat_natDigits n
  rw [hd]
  simp only [List.cons_append, parseNum, hne, if_false]
  simp only [List.cons_append] at hspan
  rw [hspan]
  simp [hsum]

theorem parseNum_intChars (i : Int) (rest : List Char) (hr : delimOk rest) :
    parseNum (intChars i ++ rest) = some (.num i, rest) := by
  unfold intChars
  split
  · rename_i hneg
    simp only [List.cons_append, parseNum, if_pos rfl]
    rw [span_digits_append (natDigits_all_digits i.natAbs) hr]
    rw [if_neg (natDigits_ne_nil _), digitsToNat_natDigits]
    have h2 : -((i.natAbs : Int)) = i := by omega
    rw [h2]
    simp
  · rename_i hpos
    have h2 : ((i.natAbs : Int)) = i := by omega
    rw [parseNum_natDigits _ _ hr, h2]

theorem hexVal_hexDigit : ∀ n < 16, hexVal (hexDigit n) = some n := by decide

theorem parseStrChars_escBody (cs : List Char) (rest : List Char) :
    parseStrChars (escBody cs ++ '"' :: rest) = some (cs, rest) := by
  induction cs with
  | nil =>
    have h0 : escBody ([] : List Char) ++ '"' :: rest = '"' :: rest := by simp [escBody]
    rw [h0, parseStrChars.eq_def]
    simp
  | cons c cs' ih =>
    have hstep : escBody (c :: cs') = escChar c ++ escBody cs' := by simp [escBody]
    rw [hstep]
    unfold escChar
    by_cases h1 : c = '"'
    · subst h1; simp [parseStrChars, unescChar, ih]
    rw [if_neg h1]
    by_cases h2 : c = '\\'
    · subst h2; simp [parseStrChars, unescChar, ih]
    rw [if_neg h2]
    by_cases h3 : c = '\n'
    · subst h3; simp [parseStrChars, unescChar, ih]
    rw [if_neg h3]
    by_cases h4 : c = '\t'
    · subst h4; simp [parseStrChars, unescChar, ih]
    rw [if_neg h4]
    by_cases h5 : c = '\r'
    · subst h5; simp [parseStrChars, unescChar, ih]
    rw [if_neg h5]
    by_cases h6 : c = '\x08'
    · subst h6; simp [parseStrChars, unescChar, ih]
    rw [if_neg h6]
    by_cases h7 : c = '\x0c'
    · subst h7; simp [parseStrChars, unescChar, ih]
    rw [if_neg h7]
    by_cases h8 : c.toNat < 0x20
    · rw [if_pos h8]
      have e1 : hexVal (hexDigit (c.toNat / 16)) = some (c.toNat / 16) :=
        hexVal_hexDigit _ (by omega)
      have e2 : hexVal (hexDigit (c.toNat % 16)) = some (c.toNat % 16) :=
        hexVal_hexDigit _ (by omega)
      have hz : hexVal '0' = some 0 := by decide
      simp only [List.cons_append, List.append_assoc, parseStrChars, e1, e2, hz]
      have hn : ((0 * 16 + 0) * 16 + c.toNat / 16) * 16 + c.toNat % 16 = c.toNat := by omega
      simp only [hn]
      have hv : Nat.isValidChar c.toNat := Or.inl (by omega)
      simp [hv, Char.ofNat_toNat, ih]
    · rw [if_neg h8, parseStrChars.eq_def]
      simp [h1, h2, h8, ih]

/-- A printed value starts with a non-whitespace character that is not a
closing bracket. -/
theorem printVal_head (ind : Nat) (x : Json) :
    ∃ c cs, Json.printVal ind x = c :: cs ∧ isWsChar c = false ∧ c ≠ ']' ∧ c ≠ '\x7d' := by
  cases x with
  | null =>
    exact ⟨'n', ['u','l','l'], by simp [Json.printVal], by decide, by decide, by decide⟩
  | bool b => cases b with
    | true =>
      exact ⟨'t', ['r','u','e'], by simp [Json.printVal], by decide, by decide, by decide⟩
    | false =>
      exact ⟨'f', ['a','l','s','e'], by simp [Json.printVal], by decide, by decide, by decide⟩
  | num i =>
    have hpv : Json.printVal ind (.num i) = intChars i := by simp [Json.printVal]
    rw [hpv]
    unfold intChars
    split
    · exact ⟨'-', _, rfl, by decide, by decide, by decide⟩
    · obtain ⟨d, ds, hd⟩ : ∃ d ds, natDigits i.natAbs = d :: ds := by
        cases h : natDigits i.natAbs with
        | nil => exact absurd h (natDigits_ne_nil _)
        | cons d ds => exact ⟨d, ds, rfl⟩
      have hdig := natDigits_all_digits i.natAbs d (by rw [hd]; simp)
      have hf := digit_facts hdig
      exact ⟨d, ds, hd, hf.1, hf.2.2.2.2.2.2.2.1, hf.2.2.2.2.2.2.2.2.1⟩
  | str s =>
    exact ⟨'"', escBody s.data ++ ['"'], by simp [Json.printVal, strLit],
      by decide, by decide, by decide⟩
  | arr xs => cases xs with
    | nil => exact ⟨'[', [']'], by simp [Json.printVal], by decide, by decide, by decide⟩
    | cons y ys =>
      exact ⟨'[', '\n' :: (Json.printItems (ind + 2) y ys ++ '\n' :: indentStr ind ++ [']']),
        by simp [Json.printVal], by decide, by decide, by decide⟩
  | obj ms => cases ms with
    | nil => exact ⟨'\x7b', ['\x7d'], by simp [Json.printVal], by decide, by decide, by decide⟩
    | cons m ms' =>
      exact ⟨'\x7b', '\n' :: (Json.printMembers (ind + 2) m ms' ++ '\n' :: indentStr ind ++ ['\x7d']),
        by simp [Json.printVal], by decide, by decide, by decide⟩

theorem intChars_length_pos (i : Int) : 1 ≤ (intChars i).length := by
  unfold intChars
  split
  · simp
  · cases h : natDigits i.natAbs with
    | nil => exact absurd h (natDigits_ne_nil _)
    | cons d ds => simp

mutual

theorem fsize_le_print : ∀ (ind : Nat) (x : Json),
    Json.fsize x ≤ 2 * (Json.printVal ind x).length
  | _, .null => by simp [Json.printVal, Json.fsize]
  | _, .bool b => by cases b <;> simp [Json.printVal, Json.fsize]
  | ind, .num i => by
      have h := intChars_length_pos i
      simp only [Json.printVal, Json.fsize]
      omega
  | ind, .str s => by
      simp only [Json.printVal, Json.fsize, strLit, List.length_cons, List.length_append,
        List.length_singleton]
      omega
  | _, .arr [] => by simp [Json.printVal, Json.fsize, Json.fsizeItems]
  | ind, .arr (x :: xs) => by
      have hb := fsizeItems_le_print (ind + 2) x xs
      simp only [Json.printVal, Json.fsize, List.length_cons, List.length_append,
        indentStr, List.length_replicate]
      omega
  | _, .obj [] => by simp [Json.printVal, Json.fsize, Json.fsizeMembers]
  | ind, .obj (m :: ms) => by
      have hb := fsizeMembers_le_print (ind + 2) m ms
      simp only [Json.printVal, Json.fsize, List.length_cons, List.length_append,
        indentStr, List.length_replicate]
      omega
termination_by ind x => sizeOf x

theorem fsizeItems_le_print : ∀ (ind : Nat) (x : Json) (xs : List Json),
    Json.fsizeItems (x :: xs) ≤ 2 * (Json.printItems ind x xs).length + 2
  | ind, x, [] => by
      have ha := fsize_le_print ind x
      simp only [Json.printItems, Json.fsizeItems, List.length_append,
        indentStr, List.length_replicate]
      omega
  | ind, x, y :: ys => by
      have ha := fsize_le_print ind x
      have hb := fsizeItems_le_print ind y ys
      simp only [Json.printItems, Json.fsizeItems, List.length_append, List.length_cons,
        indentStr, List.length_replicate] at hb ⊢
      omega
termination_by ind x xs => 1 + sizeOf x + sizeOf xs

theorem fsizeMembers_le_print : ∀ (ind : Nat) (m : String × Json) (ms : List (String × Json)),
    Json.fsizeMembers (m :: ms) ≤ 2 * (Json.printMembers ind m ms).length + 2
  | ind, m, [] => by
      have ha := fsize_le_print ind m.2
      simp only [Json.printMembers, Json.fsizeMembers, List.length_append, List.length_cons,
        indentStr, List.length_replicate]
      omega
  | ind, m, n :: ns => by
      have ha := fsize_le_print ind m.2
      have hb := fsizeMembers_le_print ind n ns
      simp only [Json.printMembers, Json.fsizeMembers, List.length_append, List.length_cons,
        indentStr, List.length_replicate] at hb ⊢
      omega
termination_by ind m ms => 1 + sizeOf m + sizeOf ms
decreasing_by
  all_goals simp_wf
  all_goals cases m
  all_goals simp
  all_goals omega

end

/-- Text following `[` in printed output (array body and closer). -/
def arrInner (ind k : Nat) (xs : List Json) (rest : List Char) : List Char :=
  match xs with
  | [] => ']' :: rest
  | x :: xs' => '\n' :: (Json.printItems ind x xs' ++ '\n' :: (indentStr k ++ ']' :: rest))

/-- Text following one printed array item. -/
def itemsTail (ind k : Nat) (xs : List Json) (rest : List Char) : List Char :=
  match xs with
  | [] => '\n' :: (indentStr k ++ ']' :: rest)
  | y :: ys => ',' :: '\n' :: (Json.printItems ind y ys ++ '\n' :: (indentStr k ++ ']' :: rest))

/-- Text following `{` in printed output (object body and closer). -/
def objInner (ind k : Nat) (ms : List (String × Json)) (rest : List Char) : List Char :=
  match ms with
  | [] => '\x7d' :: rest
  | m :: ms' => '\n' :: (Json.printMembers ind m ms' ++ '\n' :: (indentStr k ++ '\x7d' :: rest))

/-- Text following one printed object member. -/
def membersTail (ind k : Nat) (ms : List (String × Json)) (rest : List Char) : List Char :=
  match ms with
  | [] => '\n' :: (indentStr k ++ '\x7d' :: rest)
  | n :: ns => ',' :: '\n' :: (Json.printMembers ind n ns ++ '\n' :: (indentStr k ++ '\x7d' :: rest))

theorem delimOk_itemsTail (ind k : Nat) (xs : List Json) (rest : List Char) :
    delimOk (itemsTail ind k xs rest) := by
  cases xs <;> simp [itemsTail, delimOk, isDigitChar]

theorem delimOk_membersTail (ind k : Nat) (ms : List (String × Json)) (rest : List Char) :
    delimOk (membersTail ind k ms rest) := by
  cases ms <;> simp [membersTail, delimOk, isDigitChar]

theorem skipWs_ws_cons {pre : List Char} (hpre : ∀ a ∈ pre, isWsChar a = true)
    {c : Char} (hc : isWsChar c = false) (l : List Char) :
    skipWs (pre ++ c :: l) = c :: l := by
  rw [skipWs_append_ws hpre, skipWs_cons_false hc]

theorem ws_nl_indent (n : Nat) : ∀ a ∈ '\n' :: indentStr n, isWsChar a = true := by
  intro a ha
  rcases List.mem_cons.mp ha with h | h
  · subst h; decide
  · exact indentStr_ws n a h

/-- The induction package for the printer/parser round trip, indexed by
parser fuel. -/
def RoundP (fuel : Nat) : Prop :=
  (∀ ind x (pre rest : List Char), (∀ a ∈ pre, isWsChar a = true) →
      Json.fsize x ≤ fuel → delimOk rest →
      parseVal fuel (pre ++ Json.printVal ind x ++ rest) = some (x, rest)) ∧
  (∀ ind k xs rest, Json.fsizeItems xs ≤ fuel →
      parseItems fuel (arrInner ind k xs rest) = some (.arr xs, rest)) ∧
  (∀ ind k v xs rest, Json.fsizeItems xs ≤ fuel →
      parseItemsRest fuel v (itemsTail ind k xs rest) = some (v :: xs, rest)) ∧
  (∀ ind k ms rest, Json.fsizeMembers ms ≤ fuel →
      parseMembers fuel (objInner ind k ms rest) = some (.obj ms, rest)) ∧
  (∀ ind (m : String × Json) rest, 1 + Json.fsize m.2 ≤ fuel → delimOk rest →
      parseMember fuel (strLit m.1 ++ ':' :: ' ' :: (Json.printVal ind m.2 ++ rest)) =
        some (m, rest)) ∧
  (∀ ind k (m : String × Json) ms rest, Json.fsizeMembers ms ≤ fuel →
      parseMembersRest fuel m (membersTail ind k ms rest) = some (m :: ms, rest))

theorem round_val (fuel : Nat) (ih : ∀ g, g < fuel → RoundP g) :
    ∀ ind x (pre rest : List Char), (∀ a ∈ pre, isWsChar a = true) →
      Json.fsize x ≤ fuel → delimOk rest →
      parseVal fuel (pre ++ Json.printVal ind x ++ rest) = some (x, rest) := by
  intro ind x pre rest hpre hsize hrest
  cases fuel with
  | zero => have := Json.fsize_pos x; omega
  | succ f =>
    cases x with
    | null =>
      have harg : pre ++ Json.printVal ind Json.null ++ rest
          = pre ++ 'n' :: ('u' :: 'l' :: 'l' :: rest) := by simp [Json.printVal]
      rw [harg]
      simp only [parseVal, skipWs_ws_cons hpre (by decide : isWsChar 'n' = false)]
      simp
    | bool b =>
      cases b with
      | true =>
        have harg : pre ++ Json.printVal ind (Json.bool true) ++ rest
            = pre ++ 't' :: ('r' :: 'u' :: 'e' :: rest) := by simp [Json.printVal]
        rw [harg]
        simp only [parseVal, skipWs_ws_cons hpre (by decide : isWsChar 't' = false)]
        simp
      | false =>
        have harg : pre ++ Json.printVal ind (Json.bool false) ++ rest
            = pre ++ 'f' :: ('a' :: 'l' :: 's' :: 'e' :: rest) := by simp [Json.printVal]
        rw [harg]
        simp only [parseVal, skipWs_ws_cons hpre (by decide : isWsChar 'f' = false)]
        simp
    | str s =>
      have harg : pre ++ Json.printVal ind (Json.str s) ++ rest
          = pre ++ '"' :: (escBody s.data ++ '"' :: rest) := by
        simp [Json.printVal, strLit]
      rw [harg]
      simp only [parseVal, skipWs_ws_cons hpre (by decide : isWsChar '"' = false)]
      simp [parseStrChars_escBody]
    | num i =>
      by_cases hneg : i < 0
      · have harg : pre ++ Json.printVal ind (Json.num i) ++ rest
            = pre ++ '-' :: (natDigits i.natAbs ++ rest) := by
          simp [Json.printVal, intChars, hneg]
        rw [harg]
        simp only [parseVal, skipWs_ws_cons hpre (by decide : isWsChar '-' = false)]
        simp
        simpa [intChars, hneg] using parseNum_intChars i rest hrest
      · obtain ⟨d, ds, hd⟩ : ∃ d ds, natDigits i.natAbs = d :: ds := by
          cases h : natDigits i.natAbs with
          | nil => exact absurd h (natDigits_ne_nil _)
          | cons d ds => exact ⟨d, ds, rfl⟩
        have hdig := natDigits_all_digits i.natAbs d (by rw [hd]; simp)
        have hf := digit_facts hdig
        have harg : pre ++ Json.printVal ind (Json.num i) ++ rest
            = pre ++ d :: (ds ++ rest) := by
          simp [Json.printVal, intChars, hneg, hd]
        rw [harg]
        simp only [parseVal, skipWs_ws_cons hpre hf.1]
        simp [hf.2.1, hf.2.2.1, hf.2.2.2.1, hf.2.2.2.2.1, hf.2.2.2.2.2.1,
          hf.2.2.2.2.2.2.1, hdig]
        simpa [intChars, hneg, hd] using parseNum_intChars i rest hrest
    | arr xs =>
      cases xs with
      | nil =>
        have harg : pre ++ Json.printVal ind (Json.arr []) ++ rest
            = pre ++ '[' :: (']' :: rest) := by simp [Json.printVal]
        rw [harg]
        simp only [parseVal, skipWs_ws_cons hpre (by decide : isWsChar '[' = false)]
        have hs2 : (1 : Nat) ≤ f := by
          simp [Json.fsize, Json.fsizeItems] at hsize; omega
        have hit := (ih f (by omega)).2.1 0 0 [] rest (by simp [Json.fsizeItems]; omega)
        simp only [arrInner] at hit
        simpa using hit
      | cons x xs' =>
        have harg : pre ++ Json.printVal ind (Json.arr (x :: xs')) ++ rest
            = pre ++ '[' :: arrInner (ind + 2) ind (x :: xs') rest := by
          simp [Json.printVal, arrInner]
        rw [harg]
        simp only [parseVal, skipWs_ws_cons hpre (by decide : isWsChar '[' = false)]
        have hsz : Json.fsizeItems (x :: xs') ≤ f := by
          simp [Json.fsize] at hsize; omega
        have hit := (ih f (by omega)).2.1 (ind + 2) ind (x :: xs') rest hsz
        simpa using hit
    | obj ms =>
      cases ms with
      | nil =>
        have harg : pre ++ Json.printVal ind (Json.obj []) ++ rest
            = pre ++ '\x7b' :: ('\x7d' :: rest) := by simp [Json.printVal]
        rw [harg]
        simp only [parseVal, skipWs_ws_cons hpre (by decide : isWsChar '\x7b' = false)]
        have hs2 : (1 : Nat) ≤ f := by
          simp [Json.fsize, Json.fsizeMembers] at hsize; omega
        have hit := (ih f (by omega)).2.2.2.1 0 0 [] rest (by simp [Json.fsizeMembers]; omega)
        simp only [objInner] at hit
        simpa using hit
      | cons m ms' =>
        have harg : pre ++ Json.printVal ind (Json.obj (m :: ms')) ++ rest
            = pre ++ '\x7b' :: objInner (ind + 2) ind (m :: ms') rest := by
          simp [Json.printVal, objInner]
        rw [harg]
        simp only [parseVal, skipWs_ws_cons hpre (by decide : isWsChar '\x7b' = false)]
        have hsz : Json.fsizeMembers (m :: ms') ≤ f := by
          simp [Json.fsize] at hsize; omega
        have hit := (ih f (by omega)).2.2.2.1 (ind + 2) ind (m :: ms') rest hsz
        simpa using hit

theorem round_items (fuel : Nat) (ih : ∀ g, g < fuel → RoundP g) :
    ∀ ind k xs rest, Json.fsizeItems xs ≤ fuel →
      parseItems fuel (arrInner ind k xs rest) = some (.arr xs, rest) := by
  intro ind k xs rest hsz
  cases fuel with
  | zero => have := Json.fsizeItems_pos xs; omega
  | succ f =>
    cases xs with
    | nil =>
      simp only [arrInner]
      simp only [parseItems, skipWs_cons_false (by decide : isWsChar ']' = false)]
      simp
    | cons x xs' =>
      obtain ⟨c, cs, hpv, hws, hner, _⟩ := printVal_head ind x
      have harg : arrInner ind k (x :: xs') rest
          = ('\n' :: indentStr ind) ++ c :: (cs ++ itemsTail ind k xs' rest) := by
        cases xs' <;> simp [arrInner, Json.printItems, itemsTail, hpv]
      rw [harg]
      simp only [parseItems, skipWs_ws_cons (ws_nl_indent ind) hws]
      have hszx : Json.fsize x ≤ f := by
        have := Json.fsizeItems_pos xs'
        simp [Json.fsizeItems] at hsz; omega
      have hszxs : Json.fsizeItems xs' ≤ f := by
        have := Json.fsize_pos x
        simp [Json.fsizeItems] at hsz; omega
      have hval := (ih f (by omega)).1 ind x [] (itemsTail ind k xs' rest) (by simp)
        hszx (delimOk_itemsTail ind k xs' rest)
      simp only [List.nil_append] at hval
      have hval2 : parseVal f (c :: (cs ++ itemsTail ind k xs' rest))
          = some (x, itemsTail ind k xs' rest) := by
        rw [show c :: (cs ++ itemsTail ind k xs' rest)
            = Json.printVal ind x ++ itemsTail ind k xs' rest from by rw [hpv]; simp]
        exact hval
      have hrest2 := (ih f (by omega)).2.2.1 ind k x xs' rest hszxs
      simp [hner, hval2, hrest2]

theorem round_itemsRest (fuel : Nat) (ih : ∀ g, g < fuel → RoundP g) :
    ∀ ind k v xs rest, Json.fsizeItems xs ≤ fuel →
      parseItemsRest fuel v (itemsTail ind k xs rest) = some (v :: xs, rest) := by
  intro ind k v xs rest hsz
  cases fuel with
  | zero => have := Json.fsizeItems_pos xs; omega
  | succ f =>
    cases xs with
    | nil =>
      have harg : itemsTail ind k [] rest = ('\n' :: indentStr k) ++ ']' :: rest := by
        simp [itemsTail]
      rw [harg]
      simp only [parseItemsRest, skipWs_ws_cons (ws_nl_indent k) (by decide : isWsChar ']' = false)]
      simp
    | cons y ys =>
      have harg : itemsTail ind k (y :: ys) rest
          = ',' :: (('\n' :: indentStr ind) ++ Json.printVal ind y ++ itemsTail ind k ys rest) := by
        cases ys <;> simp [itemsTail, Json.printItems]
      rw [harg]
      simp only [parseItemsRest, skipWs_cons_false (by decide : isWsChar ',' = false)]
      have hszy : Json.fsize y ≤ f := by
        have := Json.fsizeItems_pos ys
        simp [Json.fsizeItems] at hsz; omega
      have hszys : Json.fsizeItems ys ≤ f := by
        have := Json.fsize_pos y
        simp [Json.fsizeItems] at hsz; omega
      have hval := (ih f (by omega)).1 ind y ('\n' :: indentStr ind) (itemsTail ind k ys rest)
        (ws_nl_indent ind) hszy (delimOk_itemsTail ind k ys rest)
      have hrest2 := (ih f (by omega)).2.2.1 ind k y ys rest hszys
      simp only [List.cons_append, List.append_assoc] at hval
      simp [hval, hrest2]

theorem parseMember_ws {pre : List Char} (hpre : ∀ a ∈ pre, isWsChar a = true)
    (f : Nat) (cs : List Char) : parseMember f (pre ++ cs) = parseMember f cs := by
  cases f with
  | zero => rfl
  | succ g => simp only [parseMember, skipWs_append_ws hpre]

theorem round_member (fuel : Nat) (ih : ∀ g, g < fuel → RoundP g) :
    ∀ ind (m : String × Json) rest, 1 + Json.fsize m.2 ≤ fuel → delimOk rest →
      parseMember fuel (strLit m.1 ++ ':' :: ' ' :: (Json.printVal ind m.2 ++ rest)) =
        some (m, rest) := by
  intro ind m rest hsz hrest
  obtain ⟨k0, v0⟩ := m
  cases fuel with
  | zero => omega
  | succ f =>
    have harg : strLit k0 ++ ':' :: ' ' :: (Json.printVal ind v0 ++ rest)
        = '"' :: (escBody k0.data ++ '"' :: (':' :: ' ' :: (Json.printVal ind v0 ++ rest))) := by
      simp [strLit]
    rw [harg]
    simp only [parseMember, skipWs_cons_false (by decide : isWsChar '"' = false)]
    simp only [parseStrChars_escBody]
    have hval := (ih f (by omega)).1 ind v0 [' '] rest
      (by intro a ha; simp at ha; subst ha; decide) (by simp at hsz; omega) hrest
    simp only [List.singleton_append, List.cons_append, List.nil_append] at hval
    simp only [skipWs_cons_false (by decide : isWsChar ':' = false)]
    rw [hval]
    rfl

theorem round_members (fuel : Nat) (ih : ∀ g, g < fuel → RoundP g) :
    ∀ ind k ms rest, Json.fsizeMembers ms ≤ fuel →
      parseMembers fuel (objInner ind k ms rest) = some (.obj ms, rest) := by
  intro ind k ms rest hsz
  cases fuel with
  | zero => have := Json.fsizeMembers_pos ms; omega
  | succ f =>
    cases ms with
    | nil =>
      simp only [objInner]
      simp only [parseMembers, skipWs_cons_false (by decide : isWsChar '\x7d' = false)]
      simp
    | cons m ms' =>
      have harg : objInner ind k (m :: ms') rest
          = ('\n' :: indentStr ind) ++ '"' ::
              (escBody m.1.data ++ '"' ::
                (':' :: ' ' :: (Json.printVal ind m.2 ++ membersTail ind k ms' rest))) := by
        cases ms' <;> simp [objInner, Json.printMembers, membersTail, strLit]
      rw [harg]
      simp only [parseMembers, skipWs_ws_cons (ws_nl_indent ind) (by decide : isWsChar '"' = false)]
      have hszm : 1 + Json.fsize m.2 ≤ f := by
        have := Json.fsizeMembers_pos ms'
        simp [Json.fsizeMembers] at hsz; omega
      have hszms : Json.fsizeMembers ms' ≤ f := by
        have := Json.fsize_pos m.2
        simp [Json.fsizeMembers] at hsz; omega
      have hmem := (ih f (by omega)).2.2.2.2.1 ind m (membersTail ind k ms' rest) hszm
        (delimOk_membersTail ind k ms' rest)
      have hmem2 : parseMember f ('"' ::
          (escBody m.1.data ++ '"' ::
            (':' :: ' ' :: (Json.printVal ind m.2 ++ membersTail ind k ms' rest))))
          = some (m, membersTail ind k ms' rest) := by
        rw [show ('"' :: (escBody m.1.data ++ '"' ::
              (':' :: ' ' :: (Json.printVal ind m.2 ++ membersTail ind k ms' rest))))
            = strLit m.1 ++ ':' :: ' ' :: (Json.printVal ind m.2 ++ membersTail ind k ms' rest)
          from by simp [strLit]]
        exact hmem
      have hrest2 := (ih f (by omega)).2.2.2.2.2 ind k m ms' rest hszms
      simp [hmem2, hrest2]

theorem round_membersRest (fuel : Nat) (ih : ∀ g, g < fuel → RoundP g) :
    ∀ ind k (m : String × Json) ms rest, Json.fsizeMembers ms ≤ fuel →
      parseMembersRest fuel m (membersTail ind k ms rest) = some (m :: ms, rest) := by
  intro ind k m ms rest hsz
  cases fuel with
  | zero => have := Json.fsizeMembers_pos ms; omega
  | succ f =>
    cases ms with
    | nil =>
      have harg : membersTail ind k [] rest = ('\n' :: indentStr k) ++ '\x7d' :: rest := by
        simp [membersTail]
      rw [harg]
      simp only [parseMembersRest,
        skipWs_ws_cons (ws_nl_indent k) (by decide : isWsChar '\x7d' = false)]
      simp
    | cons n ns =>
      have harg : membersTail ind k (n :: ns) rest
          = ',' :: (('\n' :: indentStr ind) ++ ('"' ::
              (escBody n.1.data ++ '"' ::
                (':' :: ' ' :: (Json.printVal ind n.2 ++ membersTail ind k ns rest))))) := by
        cases ns <;> simp [membersTail, Json.printMembers, strLit]
      rw [harg]
      simp only [parseMembersRest, skipWs_cons_false (by decide : isWsChar ',' = false)]
      have hszn : 1 + Json.fsize n.2 ≤ f := by
        have := Json.fsizeMembers_pos ns
        simp [Json.fsizeMembers] at hsz; omega
      have hszns : Json.fsizeMembers ns ≤ f := by
        have := Json.fsize_pos n.2
        simp [Json.fsizeMembers] at hsz; omega
      have hmem := (ih f (by omega)).2.2.2.2.1 ind n (membersTail ind k ns rest) hszn
        (delimOk_membersTail ind k ns rest)
      have hmem2 : parseMember f (('\n' :: indentStr ind) ++ ('"' ::
          (escBody n.1.data ++ '"' ::
            (':' :: ' ' :: (Json.printVal ind n.2 ++ membersTail ind k ns rest)))))
          = some (n, membersTail ind k ns rest) := by
        rw [parseMember_ws (ws_nl_indent ind) f]
        rw [show ('"' :: (escBody n.1.data ++ '"' ::
              (':' :: ' ' :: (Json.printVal ind n.2 ++ membersTail ind k ns rest))))
            = strLit n.1 ++ ':' :: ' ' :: (Json.printVal ind n.2 ++ membersTail ind k ns rest)
          from by simp [strLit]]
        exact hmem
      have hrest2 := (ih f (by omega)).2.2.2.2.2 ind k n ns rest hszns
      simp only [List.cons_append, List.append_assoc] at hmem2
      simp [hmem2, hrest2]

theorem roundP_all (fuel : Nat) : RoundP fuel := by
  induction fuel using Nat.strong_induction_on with
  | _ fuel ih =>
    exact ⟨round_val fuel ih, round_items fuel ih, round_itemsRest fuel ih,
      round_members fuel ih, round_member fuel ih, round_membersRest fuel ih⟩

/-- `JSON.parse` inverts `JSON.stringify(·, null, 2)`. -/
theorem parseJson_stringify (x : Json) : parseJson (Json.stringify x) = some x := by
  unfold parseJson Json.stringify
  have hdata : (String.mk (Json.printVal 0 x)).data = Json.printVal 0 x := rfl
  rw [hdata]
  have hfuel : Json.fsize x ≤ 2 * (Json.printVal 0 x).length + 2 := by
    have := fsize_le_print 0 x; omega
  have hval := (roundP_all (2 * (Json.printVal 0 x).length + 2)).1 0 x [] []
    (by simp) hfuel (by trivial)
  simp only [List.nil_append, List.append_nil] at hval
  rw [hval]
  simp [skipWs]

/-! ### UTF-8 (`Buffer.from(str, 'utf8')`) -/

/-- UTF-8 encoding of one character, as byte values. -/
def utf8EncodeChar (c : Char) : List Nat :=
  if c.toNat < 0x80 then [c.toNat]
  else if c.toNat < 0x800 then [0xC0 + c.toNat / 64, 0x80 + c.toNat % 64]
  else if c.toNat < 0x10000 then
    [0xE0 + c.toNat / 4096, 0x80 + c.toNat / 64 % 64, 0x80 + c.toNat % 64]
  else
    [0xF0 + c.toNat / 262144, 0x80 + c.toNat / 4096 % 64,
      0x80 + c.toNat / 64 % 64, 0x80 + c.toNat % 64]

/-- UTF-8 bytes of a string. -/
def strBytes (s : String) : List Nat := s.data.flatMap utf8EncodeChar

def isContByte (b : Nat) : Bool := 128 ≤ b && b < 192

/-! UTF-8 decoding; `utf8Cont1/2/3` consume the trailing continuation bytes
of a multi-byte sequence. -/
mutual

/-- UTF-8 decoding of a byte sequence. -/
def utf8Decode : List Nat → Option (List Char)
  | [] => some []
  | b1 :: t1 =>
    if b1 < 0x80 then (utf8Decode t1).map (fun cs => Char.ofNat b1 :: cs)
    else if b1 < 0xC0 then none
    else if b1 < 0xE0 then utf8Cont1 (b1 - 0xC0) t1
    else if b1 < 0xF0 then utf8Cont2 (b1 - 0xE0) t1
    else if b1 < 0xF8 then utf8Cont3 (b1 - 0xF0) t1
    else none

def utf8Cont1 (acc : Nat) : List Nat → Option (List Char)
  | b :: t =>
      if isContByte b then
        (utf8Decode t).map (fun cs => Char.ofNat (acc * 64 + (b - 0x80)) :: cs)
      else none
  | [] => none

def utf8Cont2 (acc : Nat) : List Nat → Option (List Char)
  | b :: t => if isContByte b then utf8Cont1 (acc * 64 + (b - 0x80)) t else none
  | [] => none

def utf8Cont3 (acc : Nat) : List Nat → Option (List Char)
  | b :: t => if isContByte b then utf8Cont2 (acc * 64 + (b - 0x80)) t else none
  | [] => none

end

theorem char_toNat_lt (c : Char) : c.toNat < 1114112 := by
  have h := c.valid
  have ht : c.toNat = c.val.toNat := rfl
  rcases h with h | h <;> omega

theorem utf8EncodeChar_lt (c : Char) : ∀ b ∈ utf8EncodeChar c, b < 256 := by
  intro b hb
  have hlt := char_toNat_lt c
  unfold utf8EncodeChar at hb
  by_cases h1 : c.toNat < 128
  · rw [if_pos h1] at hb
    simp at hb; omega
  · rw [if_neg h1] at hb
    by_cases h2 : c.toNat < 2048
    · rw [if_pos h2] at hb
      simp at hb; rcases hb with hb | hb <;> omega
    · rw [if_neg h2] at hb
      by_cases h3 : c.toNat < 65536
      · rw [if_pos h3] at hb
        simp at hb; rcases hb with hb | hb | hb <;> omega
      · rw [if_neg h3] at hb
        simp at hb; rcases hb with hb | hb | hb | hb <;> omega

theorem utf8Decode_nil : utf8Decode [] = some [] := by
  simp [utf8Decode]

theorem utf8Decode_encodeChar (c : Char) (bs : List Nat) :
    utf8Decode (utf8EncodeChar c ++ bs) = (utf8Decode bs).map (fun cs => c :: cs) := by
  have hlt := char_toNat_lt c
  unfold utf8EncodeChar
  by_cases h1 : c.toNat < 128
  · rw [if_pos h1]
    simp only [List.cons_append, List.nil_append, utf8Decode, if_pos h1, Char.ofNat_toNat]
    simp
  · rw [if_neg h1]
    by_cases h2 : c.toNat < 2048
    · rw [if_pos h2]
      simp only [List.cons_append, List.nil_append]
      have e1 : ¬ (192 + c.toNat / 64 < 128) := by omega
      have e2 : ¬ (192 + c.toNat / 64 < 192) := by omega
      have e3 : 192 + c.toNat / 64 < 224 := by omega
      have e4 : isContByte (128 + c.toNat % 64) = true := by simp [isContByte]; omega
      simp only [utf8Decode, if_neg e1, if_neg e2, if_pos e3, utf8Cont1, e4, if_true, ite_true]
      have hn : (192 + c.toNat / 64 - 192) * 64 + (128 + c.toNat % 64 - 128) = c.toNat := by
        omega
      rw [hn, Char.ofNat_toNat]
    · rw [if_neg h2]
      by_cases h3 : c.toNat < 65536
      · rw [if_pos h3]
        simp only [List.cons_append, List.nil_append]
        have e1 : ¬ (224 + c.toNat / 4096 < 128) := by omega
        have e2 : ¬ (224 + c.toNat / 4096 < 192) := by omega
        have e3 : ¬ (224 + c.toNat / 4096 < 224) := by omega
        have e4 : 224 + c.toNat / 4096 < 240 := by omega
        have e5 : isContByte (128 + c.toNat / 64 % 64) = true := by simp [isContByte]; omega
        have e6 : isContByte (128 + c.toNat % 64) = true := by simp [isContByte]; omega
        simp only [utf8Decode, if_neg e1, if_neg e2, if_neg e3, if_pos e4,
          utf8Cont2, utf8Cont1, e5, e6, if_true, ite_true]
        have hn : ((224 + c.toNat / 4096 - 224) * 64 + (128 + c.toNat / 64 % 64 - 128)) * 64
            + (128 + c.toNat % 64 - 128) = c.toNat := by omega
        rw [hn, Char.ofNat_toNat]
      · rw [if_neg h3]
        simp only [List.cons_append, List.nil_append]
        have e1 : ¬ (240 + c.toNat / 262144 < 128) := by omega
        have e2 : ¬ (240 + c.toNat / 262144 < 192) := by omega
        have e3 : ¬ (240 + c.toNat / 262144 < 224) := by omega
        have e4 : ¬ (240 + c.toNat / 262144 < 240) := by omega
        have e5 : 240 + c.toNat / 262144 < 248 := by omega
        have e6 : isContByte (128 + c.toNat / 4096 % 64) = true := by simp [isContByte]; omega
        have e7 : isContByte (128 + c.toNat / 64 % 64) = true := by simp [isContByte]; omega
        have e8 : isContByte (128 + c.toNat % 64) = true := by simp [isContByte]; omega
        simp only [utf8Decode, if_neg e1, if_neg e2, if_neg e3, if_neg e4, if_pos e5,
          utf8Cont3, utf8Cont2, utf8Cont1, e6, e7, e8, if_true, ite_true]
        have hn : (((240 + c.toNat / 262144 - 240) * 64 + (128 + c.toNat / 4096 % 64 - 128)) * 64
            + (128 + c.toNat / 64 % 64 - 128)) * 64 + (128 + c.toNat % 64 - 128) = c.toNat := by
          omega
        rw [hn, Char.ofNat_toNat]

theorem utf8Decode_strBytes (s : String) : utf8Decode (strBytes s) = some s.data := by
  show utf8Decode (s.data.flatMap utf8EncodeChar) = some s.data
  induction s.data with
  | nil => exact utf8Decode_nil
  | cons c cs' ih =>
    rw [List.flatMap_cons, utf8Decode_encodeChar, ih]
    rfl

/-! ### Base64 (`Buffer.toString('base64')` and its inverse) -/

def b64Alpha : List Char :=
  ['A','B','C','D','E','F','G','H','I','J','K','L','M','N','O','P','Q','R','S','T','U','V',
   'W','X','Y','Z','a','b','c','d','e','f','g','h','i','j','k','l','m','n','o','p','q','r',
   's','t','u','v','w','x','y','z','0','1','2','3','4','5','6','7','8','9','+','/']

def b64Char (n : Nat) : Char := b64Alpha.getD n 'A'

def b64Index (c : Char) : Option Nat :=
  if 65 ≤ c.toNat ∧ c.toNat ≤ 90 then some (c.toNat - 65)
  else if 97 ≤ c.toNat ∧ c.toNat ≤ 122 then some (c.toNat - 97 + 26)
  else if 48 ≤ c.toNat ∧ c.toNat ≤ 57 then some (c.toNat - 48 + 52)
  else if c = '+' then some 62
  else if c = '/' then some 63
  else none

/-- Base64 encoding: bytes to characters, three bytes per four characters,
`=`-padded. -/
def b64EncodeBytes : List Nat → List Char
  | [] => []
  | [a] => [b64Char (a / 4), b64Char (a % 4 * 16), '=', '=']
  | [a, b] => [b64Char (a / 4), b64Char (a % 4 * 16 + b / 16), b64Char (b % 16 * 4), '=']
  | a :: b :: d :: rest =>
      b64Char (a / 4) :: b64Char (a % 4 * 16 + b / 16) ::
        b64Char (b % 16 * 4 + d / 64) :: b64Char (d % 64) :: b64EncodeBytes rest

/-- Base64 decoding of well-formed base64 text. -/
def b64DecodeBytes : List Char → Option (List Nat)
  | [] => some []
  | c1 :: c2 :: c3 :: c4 :: rest =>
      match b64Index c1, b64Index c2 with
      | some i1, some i2 =>
        if c3 = '=' then
          if c4 = '=' ∧ rest = [] then some [i1 * 4 + i2 / 16] else none
        else
          match b64Index c3 with
          | some i3 =>
            if c4 = '=' then
              if rest = [] then some [i1 * 4 + i2 / 16, i2 % 16 * 16 + i3 / 4] else none
            else
              match b64Index c4 with
              | some i4 =>
                  (b64DecodeBytes rest).map
                    (fun bs => (i1 * 4 + i2 / 16) :: (i2 % 16 * 16 + i3 / 4) ::
                      (i3 % 4 * 64 + i4) :: bs)
              | none => none
          | none => none
      | _, _ => none
  | _ => none

theorem b64Index_b64Char : ∀ n < 64, b64Index (b64Char n) = some n := by decide

theorem b64Char_ne_eq (n : Nat) : b64Char n ≠ '=' := by
  by_cases h : n < 64
  · revert n h
    decide
  · unfold b64Char
    rw [List.getD_eq_default _ _ (by simp [b64Alpha]; omega)]
    decide

theorem b64Char_ne_nl (n : Nat) : b64Char n ≠ '\n' := by
  by_cases h : n < 64
  · revert n h
    decide
  · unfold b64Char
    rw [List.getD_eq_default _ _ (by simp [b64Alpha]; omega)]
    decide

theorem b64_roundtrip : ∀ bs : List Nat, (∀ b ∈ bs, b < 256) →
    b64DecodeBytes (b64EncodeBytes bs) = some bs
  | [] => by intro _; simp [b64EncodeBytes, b64DecodeBytes]
  | [a] => by
      intro h
      have ha : a < 256 := h a (by simp)
      simp only [b64EncodeBytes, b64DecodeBytes,
        b64Index_b64Char (a / 4) (by omega), b64Index_b64Char (a % 4 * 16) (by omega)]
      simp
      omega
  | [a, b] => by
      intro h
      have ha : a < 256 := h a (by simp)
      have hb : b < 256 := h b (by simp)
      simp only [b64EncodeBytes, b64DecodeBytes,
        b64Index_b64Char (a / 4) (by omega), b64Index_b64Char (a % 4 * 16 + b / 16) (by omega),
        b64Index_b64Char (b % 16 * 4) (by omega)]
      simp
      rw [if_neg (b64Char_ne_eq _)]
      simp
      omega
  | a :: b :: d :: rest => by
      intro h
      have ha : a < 256 := h a (by simp)
      have hb : b < 256 := h b (by simp)
      have hd : d < 256 := h d (by simp)
      have ih := b64_roundtrip rest (fun x hx => h x (by simp [hx]))
      simp only [b64EncodeBytes, b64DecodeBytes,
        b64Index_b64Char (a / 4) (by omega), b64Index_b64Char (a % 4 * 16 + b / 16) (by omega),
        b64Index_b64Char (b % 16 * 4 + d / 64) (by omega), b64Index_b64Char (d % 64) (by omega)]
      rw [if_neg (b64Char_ne_eq _), if_neg (b64Char_ne_eq _), ih]
      have h1 : a / 4 * 4 + (a % 4 * 16 + b / 16) / 16 = a := by omega
      have h2 : (a % 4 * 16 + b / 16) % 16 * 16 + (b % 16 * 4 + d / 64) / 4 = b := by omega
      have h3 : (b % 16 * 4 + d / 64) % 4 * 64 + d % 64 = d := by omega
      rw [h1, h2, h3]
      rfl

/-- `Buffer.from(str, 'utf8').toString('base64')`. -/
def toBase64 (s : String) : String := String.mk (b64EncodeBytes (strBytes s))

/-- `Buffer.from(b64, 'base64').toString('utf8')`.  `Buffer` never throws;
on input that is not well-formed base64/UTF-8 (which the store never
produces) the model returns `""`. -/
def fromBase64 (b : String) : String :=
  ((b64DecodeBytes b.data).bind (fun bs => (utf8Decode bs).map String.mk)).getD ""

/-- `String(x).split('\n').join('')`: removes every newline. -/
def stripNL (s : String) : String := String.mk (s.data.filter (fun c => c != '\n'))

theorem strBytes_lt (s : String) : ∀ b ∈ strBytes s, b < 256 := by
  intro b hb
  simp only [strBytes, List.mem_flatMap] at hb
  obtain ⟨c, _, hc⟩ := hb
  exact utf8EncodeChar_lt c b hc

theorem fromBase64_toBase64 (s : String) : fromBase64 (toBase64 s) = s := by
  unfold fromBase64 toBase64
  have hdata : (String.mk (b64EncodeBytes (strBytes s))).data = b64EncodeBytes (strBytes s) :=
    rfl
  rw [hdata, b64_roundtrip _ (strBytes_lt s)]
  simp [utf8Decode_strBytes]

theorem b64EncodeBytes_no_nl : ∀ bs : List Nat, ∀ c ∈ b64EncodeBytes bs, c ≠ '\n'
  | [] => by simp [b64EncodeBytes]
  | [a] => by
      intro c hc
      rcases List.mem_cons.mp hc with h | hc
      · subst h; exact b64Char_ne_nl _
      rcases List.mem_cons.mp hc with h | hc
      · subst h; exact b64Char_ne_nl _
      rcases List.mem_cons.mp hc with h | hc
      · subst h; decide
      rcases List.mem_cons.mp hc with h | hc
      · subst h; decide
      · simp at hc
  | [a, b] => by
      intro c hc
      rcases List.mem_cons.mp hc with h | hc
      · subst h; exact b64Char_ne_nl _
      rcases List.mem_cons.mp hc with h | hc
      · subst h; exact b64Char_ne_nl _
      rcases List.mem_cons.mp hc with h | hc
      · subst h; exact b64Char_ne_nl _
      rcases List.mem_cons.mp hc with h | hc
      · subst h; decide
      · simp at hc
  | a :: b :: d :: rest => by
      intro c hc
      simp only [b64EncodeBytes, List.mem_cons] at hc
      rcases hc with hc | hc | hc | hc | hc
      · subst hc; exact b64Char_ne_nl _
      · subst hc; exact b64Char_ne_nl _
      · subst hc; exact b64Char_ne_nl _
      · subst hc; exact b64Char_ne_nl _
      · exact b64EncodeBytes_no_nl rest c hc

theorem stripNL_toBase64 (s : String) : stripNL (toBase64 s) = toBase64 s := by
  unfold stripNL
  have hdata : (toBase64 s).data = b64EncodeBytes (strBytes s) := rfl
  rw [hdata]
  have hfil : (b64EncodeBytes (strBytes s)).filter (fun c => c != '\n')
      = b64EncodeBytes (strBytes s) := by
    rw [List.filter_eq_self]
    intro c hc
    simp [b64EncodeBytes_no_nl (strBytes s) c hc]
  rw [hfil]
  rfl

/-! ### The GitHub contents backend model

A `Store` maps repository paths to files.  GitHub's blob hash is
content-addressed, modelled by the injective `shaOf`.  Each `fetch` consumes
one `FetchOutcome` from a schedule: `.deliver` lets the backend answer from
the store, `.fail status raw` models a non-2xx HTTP response (network or
server failure).  An exhausted schedule delivers. -/

structure GFile where
  content : String
  sha : String
deriving DecidableEq, Repr

def shaOf (content : String) : String := "sha-" ++ content

def commitUrlOf (sha : String) : String := "commit-" ++ sha

inductive FetchOutcome where
  | deliver : FetchOutcome
  | fail (status : Nat) (raw : String) : FetchOutcome
deriving DecidableEq, Repr

structure BState where
  store : String → Option GFile
  sched : List FetchOutcome
  calls : Nat

def popOutcome (st : BState) : FetchOutcome × BState :=
  match st.sched with
  | [] => (.deliver, { st with calls := st.calls + 1 })
  | o :: rest => (o, { st with sched := rest, calls := st.calls + 1 })

def storeSet (σ : String → Option GFile) (p : String) (f : GFile) :
    String → Option GFile :=
  fun q => if q = p then some f else σ q

def storeDel (σ : String → Option GFile) (p : String) : String → Option GFile :=
  fun q => if q = p then none else σ q

/-- A wrapped backend error: operation stage, HTTP status, raw body
(source also carries `statusText`/`url`, diagnostic strings omitted here). -/
structure GhErr where
  stage : String
  status : Nat
  raw : String
deriving DecidableEq, Repr

def GhErr.toJson (e : GhErr) : Json :=
  .obj [("stage", .str e.stage), ("status", .num (e.status : Int)), ("raw", .str e.raw)]

inductive GhGetResult where
  | err (e : GhErr) : GhGetResult
  | notFound : GhGetResult
  | found (sha : String) (contentB64 : String) : GhGetResult
deriving DecidableEq, Repr

inductive GhPutResult where
  | err (e : GhErr) : GhPutResult
  | ok (sha : String) (commitUrl : String) : GhPutResult
deriving DecidableEq, Repr

inductive GhDelResult where
  | err (e : GhErr) : GhDelResult
  | ok (commitUrl : String) : GhDelResult
deriving DecidableEq, Repr

/-- `ghGetFile` (source lines 34–44): a 404 (delivered by the backend for a
missing file, or injected) is `{exists:false}`; any other non-ok status is a
wrapped error; otherwise the content arrives base64-encoded and the client
strips newlines (line 42). -/
def ghGetFile (st : BState) (path : String) : GhGetResult × BState :=
  let p := popOutcome st
  match p.1 with
  | .fail status raw =>
      if status = 404 then (.notFound, p.2)
      else (.err ⟨"github_get", status, raw⟩, p.2)
  | .deliver =>
      match p.2.store path with
      | none => (.notFound, p.2)
      | some f => (.found f.sha (stripNL (toBase64 f.content)), p.2)

/-- `ghPutFile` (source lines 46–60): sends base64 content; GitHub stores the
decoded bytes and enforces the `sha` precondition (compare-and-swap). -/
def ghPutFile (st : BState) (path msg contentStr : String) (sha : Option String) :
    GhPutResult × BState :=
  let p := popOutcome st
  match p.1 with
  | .fail status raw => (.err ⟨"github_put", status, raw⟩, p.2)
  | .deliver =>
      let stored := fromBase64 (toBase64 contentStr)
      let newSha := shaOf stored
      match p.2.store path, sha with
      | none, none =>
          (.ok newSha (commitUrlOf newSha),
            { p.2 with store := storeSet p.2.store path ⟨stored, newSha⟩ })
      | none, some _ => (.err ⟨"github_put", 422, "sha supplied for a new file"⟩, p.2)
      | some _, none => (.err ⟨"github_put", 422, "sha missing for existing file"⟩, p.2)
      | some f, some s =>
          if s = f.sha then
            (.ok newSha (commitUrlOf newSha),
              { p.2 with store := storeSet p.2.store path ⟨stored, newSha⟩ })
          else (.err ⟨"github_put", 409, "sha mismatch"⟩, p.2)

/-- `ghDeleteFile` (source lines 62–76): requires the current sha; a missing
file or a sha mismatch is a backend error (no 404 special case here). -/
def ghDeleteFile (st : BState) (path msg sha : String) : GhDelResult × BState :=
  let p := popOutcome st
  match p.1 with
  | .fail status raw => (.err ⟨"github_delete", status, raw⟩, p.2)
  | .deliver =>
      match p.2.store path with
      | none => (.err ⟨"github_delete", 404, "Not Found"⟩, p.2)
      | some f =>
          if sha = f.sha then
            (.ok (commitUrlOf f.sha), { p.2 with store := storeDel p.2.store path })
          else (.err ⟨"github_delete", 409, "sha mismatch"⟩, p.2)

/-! ### Identifier validation, manifest helpers, entry manipulation -/

/-- JS `String.prototype.trim` whitespace (common set). -/
def isJsSpace (c : Char) : Bool :=
  c = ' ' || c = '\t' || c = '\n' || c = '\r' || c = '\x0b' || c = '\x0c' ||
    c.toNat = 0xA0 || c.toNat = 0xFEFF

def jsTrim (s : String) : String :=
  String.mk (((s.data.dropWhile isJsSpace).reverse.dropWhile isJsSpace).reverse)

def isIdChar (c : Char) : Bool :=
  (65 ≤ c.toNat && c.toNat ≤ 90) || (97 ≤ c.toNat && c.toNat ≤ 122) ||
    (48 ≤ c.toNat && c.toNat ≤ 57) || c = '-' || c = '_'

/-- `safeDashId` (source lines 78–83): trim `String(id || '')`, reject the
empty string, then require `^[a-zA-Z0-9_-]{3,80}$`. -/
def safeDashId (id : Option String) : Option String :=
  let s := jsTrim (id.getD "")
  if s.data = [] then none
  else if 3 ≤ s.data.length ∧ s.data.length ≤ 80 ∧ s.data.all isIdChar then some s
  else none

def MANIFEST_PATH : String := "data/manifest.json"
def DASH_DIR : String := "data/dashboards"
def dashPath (id : String) : String := DASH_DIR ++ "/" ++ id ++ ".json"

inductive ManRes where
  | err (e : GhErr) : ManRes
  | ok (found : Bool) (sha : Option String) (list : List Json) : ManRes
deriving DecidableEq, Repr

/-- `loadManifest` (source lines 85–96): a missing file is an empty list with
no hash; unparsable content or a non-array is an empty list with the existing
hash. -/
def loadManifest (st : BState) : ManRes × BState :=
  let p := ghGetFile st MANIFEST_PATH
  match p.1 with
  | .err e => (.err e, p.2)
  | .notFound => (.ok false none [], p.2)
  | .found sha b64 =>
      match parseJson (fromBase64 b64) with
      | some (.arr xs) => (.ok true (some sha) xs, p.2)
      | some _ => (.ok true (some sha) [], p.2)
      | none => (.ok true (some sha) [], p.2)

/-- `saveManifest` (source lines 98–101). -/
def saveManifest (st : BState) (manifestSha : Option String) (list : List Json) :
    GhPutResult × BState :=
  ghPutFile st MANIFEST_PATH "Update manifest" (Json.stringify (.arr list)) manifestSha

/-- JS `String(x)` for a JSON value.  Arrays deeper than one level and the
exotic cases are coarsened; the store only ever applies this to
`state.__meta.name`. -/
def jsToString : Json → String
  | .null => "null"
  | .bool true => "true"
  | .bool false => "false"
  | .num i => String.mk (intChars i)
  | .str s => s
  | .arr xs => String.intercalate "," (xs.map (fun x =>
      match x with
      | .null => ""
      | .bool true => "true"
      | .bool false => "false"
      | .num i => String.mk (intChars i)
      | .str s => s
      | .arr _ => ""
      | .obj _ => "[object Object]"))
  | .obj _ => "[object Object]"

/-- Name derivation (source line 169):
`state && state.__meta && state.__meta.name ? String(state.__meta.name) : null`. -/
def deriveName (state : Json) : Json :=
  if state.truthy then
    match state.getProp "__meta" with
    | some m =>
        if m.truthy then
          match m.getProp "name" with
          | some n => if n.truthy then .str (jsToString n) else .null
          | none => .null
        else .null
    | none => .null
  else .null

/-- `x && x.id === id` (source line 170). -/
def entryMatches (x : Json) (id : String) : Bool :=
  x.truthy && (x.getProp "id" = some (Json.str id))

/-- JS property assignment on an ordered field list: overwrite in place if
the key exists, else append. -/
def setProp (fields : List (String × Json)) (k : String) (v : Json) :
    List (String × Json) :=
  if fields.any (fun p => p.1 = k) then
    fields.map (fun p => if p.1 = k then (k, v) else p)
  else fields ++ [(k, v)]

/-- `Object.assign({}, old, entry)` (source line 172).  For the unreachable
non-object `old` (a matched entry always is an object), primitives contribute
no own properties. -/
def objAssign (old : Json) (entry : List (String × Json)) : Json :=
  match old with
  | .obj fs => .obj (entry.foldl (fun acc kv => setProp acc kv.1 kv.2) fs)
  | _ => .obj entry

/-- The fresh manifest entry `{ id, name, updatedAt: now }` (source line 171). -/
def mkEntry (id : String) (name : Json) (now : String) : List (String × Json) :=
  [("id", .str id), ("name", name), ("updatedAt", .str now)]

/-- The upsert of source lines 170–173: replace the first entry whose `id`
matches (merged over the old entry, in place), else append. -/
def upsertEntry (id : String) (entry : List (String × Json)) : List Json → List Json
  | [] => [.obj entry]
  | x :: xs =>
      if entryMatches x id then objAssign x entry :: xs
      else x :: upsertEntry id entry xs

/-- The delete filter of source line 195: `list.filter(x => x && x.id !== id)`. -/
def deleteFilter (id : String) (l : List Json) : List Json :=
  l.filter (fun x => x.truthy && ! (x.getProp "id" = some (Json.str id)))

/-! ### The request handler (source lines 109–206)

The environment-variable check (lines 113–123) is configuration plumbing
outside the core (spec §1) and is modelled as a correctly-configured
deployment; the body-reparse fallback of lines 151–153 collapses because the
platform delivers the request body already JSON-parsed. -/

structure Req where
  method : String
  dash : Option String
  listFlag : Bool
  body : Json

structure HttpResp where
  status : Nat
  body : Json
deriving DecidableEq, Repr

def errJson (msg : String) : Json := .obj [("error", .str msg)]

def errDetails (msg : String) (e : GhErr) : Json :=
  .obj [("error", .str msg), ("details", e.toJson)]

/-- The catch-all response of lines 203–205 (`String(e.message)` modelled as
a fixed diagnostic). -/
def unhandledJson : Json :=
  .obj [("error", .str "Unhandled"), ("details", .str "SyntaxError: JSON.parse")]

/-- `payload.state` extraction (source lines 151–155). -/
def extractState (body : Json) : Json :=
  match body with
  | .obj fields =>
      match fields.lookup "state" with
      | some v => v
      | none => .null
  | _ => .null

def handle (req : Req) (now : String) (st : BState) : HttpResp × BState :=
  if req.method = "OPTIONS" then (⟨204, .null⟩, st)
  else if req.method = "GET" ∧ req.listFlag then
    let p := loadManifest st
    match p.1 with
    | .err e => (⟨502, errDetails "Manifest GET failed" e⟩, p.2)
    | .ok _ _ list => (⟨200, .obj [("dashboards", .arr list)]⟩, p.2)
  else if req.method = "GET" then
    match safeDashId req.dash with
    | none => (⟨400, errJson "Missing/invalid dash id"⟩, st)
    | some id =>
      let p := ghGetFile st (dashPath id)
      match p.1 with
      | .err e => (⟨502, errDetails "GitHub GET failed" e⟩, p.2)
      | .notFound => (⟨200, .obj [("state", .null), ("exists", .bool false)]⟩, p.2)
      | .found _ b64 =>
          match parseJson (fromBase64 b64) with
          | some state => (⟨200, .obj [("state", state), ("exists", .bool true)]⟩, p.2)
          | none => (⟨500, unhandledJson⟩, p.2)
  else if req.method = "POST" then
    match safeDashId req.dash with
    | none => (⟨400, errJson "Missing/invalid dash id"⟩, st)
    | some id =>
      let state := extractState req.body
      let p1 := ghGetFile st (dashPath id)
      match p1.1 with
      | .err e => (⟨502, errDetails "GitHub GET pre-update failed" e⟩, p1.2)
      | existing =>
        let existingSha : Option String :=
          match existing with
          | .found sha _ => some sha
          | _ => none
        let p2 := ghPutFile p1.2 (dashPath id) ("Update dashboard " ++ id)
          (Json.stringify state) existingSha
        match p2.1 with
        | .err e => (⟨502, errDetails "GitHub PUT failed" e⟩, p2.2)
        | .ok _ commitUrl =>
          let p3 := loadManifest p2.2
          match p3.1 with
          | .err e => (⟨502, errDetails "Manifest GET failed" e⟩, p3.2)
          | .ok _ msha list =>
            let newList := upsertEntry id (mkEntry id (deriveName state) now) list
            let p4 := saveManifest p3.2 msha newList
            match p4.1 with
            | .err e => (⟨502, errDetails "Manifest PUT failed" e⟩, p4.2)
            | .ok _ _ =>
                (⟨200, .obj [("ok", .bool true), ("commitUrl", .str commitUrl)]⟩, p4.2)
  else if req.method = "DELETE" then
    match safeDashId req.dash with
    | none => (⟨400, errJson "Missing/invalid dash id"⟩, st)
    | some id =>
      let p1 := ghGetFile st (dashPath id)
      match p1.1 with
      | .err e => (⟨502, errDetails "GitHub GET pre-delete failed" e⟩, p1.2)
      | .notFound => (⟨200, .obj [("ok", .bool true), ("deleted", .bool false)]⟩, p1.2)
      | .found sha _ =>
        let p2 := ghDeleteFile p1.2 (dashPath id) ("Delete " ++ dashPath id) sha
        match p2.1 with
        | .err e => (⟨502, errDetails "GitHub DELETE failed" e⟩, p2.2)
        | .ok commitUrl =>
          let p3 := loadManifest p2.2
          match p3.1 with
          | .err _ => (⟨200, .obj [("ok", .bool true), ("commitUrl", .str commitUrl)]⟩, p3.2)
          | .ok _ msha list =>
            let p4 := saveManifest p3.2 msha (deleteFilter id list)
            (⟨200, .obj [("ok", .bool true), ("commitUrl", .str commitUrl)]⟩, p4.2)
  else (⟨405, errJson "Method not allowed"⟩, st)

/-! ### Store and path lemmas -/

theorem storeSet_same (σ : String → Option GFile) (p : String) (f : GFile) :
    storeSet σ p f p = some f := by simp [storeSet]

theorem storeSet_other (σ : String → Option GFile) (p : String) (f : GFile)
    {q : String} (h : q ≠ p) : storeSet σ p f q = σ q := by simp [storeSet, h]

theorem storeDel_same (σ : String → Option GFile) (p : String) :
    storeDel σ p p = none := by simp [storeDel]

theorem storeDel_other (σ : String → Option GFile) (p : String)
    {q : String} (h : q ≠ p) : storeDel σ p q = σ q := by simp [storeDel, h]

theorem dashPath_ne_manifest (id : String) : dashPath id ≠ MANIFEST_PATH := by
  intro h
  have h2 : (dashPath id).data = MANIFEST_PATH.data := by rw [h]
  simp only [dashPath, DASH_DIR, MANIFEST_PATH, String.data_append] at h2
  simp at h2

theorem manifest_ne_dashPath (id : String) : MANIFEST_PATH ≠ dashPath id :=
  fun h => dashPath_ne_manifest id h.symm

/-- Characterization of a fully-delivered `put`: with no injected failures it
succeeds and stores the pretty-printed state under the dashboard's path. -/
theorem put_ok (σ : String → Option GFile) (dash : Option String) (id : String)
    (X : Json) (now : String) (hid : safeDashId dash = some id) :
    (handle ⟨"POST", dash, false, .obj [("state", X)]⟩ now ⟨σ, [], 0⟩).1
      = ⟨200, .obj [("ok", .bool true),
          ("commitUrl", .str (commitUrlOf (shaOf (Json.stringify X))))]⟩ ∧
    ((handle ⟨"POST", dash, false, .obj [("state", X)]⟩ now ⟨σ, [], 0⟩).2).store (dashPath id)
      = some ⟨Json.stringify X, shaOf (Json.stringify X)⟩ := by
  have hne1 := manifest_ne_dashPath id
  have hne2 := dashPath_ne_manifest id
  cases hdoc : σ (dashPath id) with
  | none =>
    cases hman : σ MANIFEST_PATH with
    | none =>
      refine ⟨?_, ?_⟩ <;>
        simp [handle, hid, ghGetFile, ghPutFile, loadManifest, saveManifest, popOutcome,
          extractState, hdoc, hman, fromBase64_toBase64, stripNL_toBase64,
          storeSet_same, storeSet_other, hne1, hne2]
    | some f =>
      cases hparse : parseJson f.content with
      | none =>
        refine ⟨?_, ?_⟩ <;>
          simp [handle, hid, ghGetFile, ghPutFile, loadManifest, saveManifest, popOutcome,
            extractState, hdoc, hman, hparse, fromBase64_toBase64, stripNL_toBase64,
            storeSet_same, storeSet_other, hne1, hne2]
      | some j =>
        cases j <;> (refine ⟨?_, ?_⟩ <;>
          simp [handle, hid, ghGetFile, ghPutFile, loadManifest, saveManifest, popOutcome,
            extractState, hdoc, hman, hparse, fromBase64_toBase64, stripNL_toBase64,
            storeSet_same, storeSet_other, hne1, hne2])
  | some fdoc =>
    cases hman : σ MANIFEST_PATH with
    | none =>
      refine ⟨?_, ?_⟩ <;>
        simp [handle, hid, ghGetFile, ghPutFile, loadManifest, saveManifest, popOutcome,
          extractState, hdoc, hman, fromBase64_toBase64, stripNL_toBase64,
          storeSet_same, storeSet_other, hne1, hne2]
    | some f =>
      cases hparse : parseJson f.content with
      | none =>
        refine ⟨?_, ?_⟩ <;>
          simp [handle, hid, ghGetFile, ghPutFile, loadManifest, saveManifest, popOutcome,
            extractState, hdoc, hman, hparse, fromBase64_toBase64, stripNL_toBase64,
            storeSet_same, storeSet_other, hne1, hne2]
      | some j =>
        cases j <;> (refine ⟨?_, ?_⟩ <;>
          simp [handle, hid, ghGetFile, ghPutFile, loadManifest, saveManifest, popOutcome,
            extractState, hdoc, hman, hparse, fromBase64_toBase64, stripNL_toBase64,
            storeSet_same, storeSet_other, hne1, hne2])

/-- A delivered `get` on a stored document parses its content. -/
theorem get_found (σ : String → Option GFile) (dash : Option String) (id now : String)
    (f : GFile) (X : Json) (hid : safeDashId dash = some id)
    (hdoc : σ (dashPath id) = some f) (hx : parseJson f.content = some X) :
    (handle ⟨"GET", dash, false, .null⟩ now ⟨σ, [], 0⟩).1
      = ⟨200, .obj [("state", X), ("exists", .bool true)]⟩ := by
  simp [handle, hid, ghGetFile, popOutcome, hdoc, fromBase64_toBase64, stripNL_toBase64, hx]

/-- Keys pairwise distinct (a JS object cannot carry duplicate keys). -/
def allDistinctKeys : List String → Bool
  | [] => true
  | k :: ks => !(ks.contains k) && allDistinctKeys ks

mutual

/-- `x` is representable as a JavaScript value: every object has distinct
keys. -/
def Json.wfB : Json → Bool
  | .null => true
  | .bool _ => true
  | .num _ => true
  | .str _ => true
  | .arr xs => Json.wfBList xs
  | .obj ms => allDistinctKeys (ms.map Prod.fst) && Json.wfBMembers ms

def Json.wfBList : List Json → Bool
  | [] => true
  | x :: xs => Json.wfB x && Json.wfBList xs

def Json.wfBMembers : List (String × Json) → Bool
  | [] => true
  | (_, v) :: ms => Json.wfB v && Json.wfBMembers ms

end

/-- C1: for every valid dashboard id and JSON-serializable state `X`, a
fully-delivered `put(id, X)` succeeds, and a subsequent `get(id)` answers
`exists:true` with a state equal to `X` — the document round-trips through
JSON serialization, base64 transcoding and parsing unchanged. -/
theorem C1_put_get_round_trip
    (σ : String → Option GFile) (dash : Option String) (id : String) (X : Json)
    (now now2 : String) (hid : safeDashId dash = some id) (hwf : Json.wfB X = true) :
    (handle ⟨"POST", dash, false, .obj [("state", X)]⟩ now ⟨σ, [], 0⟩).1.status = 200 ∧
    (handle ⟨"GET", dash, false, .null⟩ now2
        ⟨(handle ⟨"POST", dash, false, .obj [("state", X)]⟩ now ⟨σ, [], 0⟩).2.store,
          [], 0⟩).1
      = ⟨200, .obj [("state", X), ("exists", .bool true)]⟩ := by
  obtain ⟨h1, h2⟩ := put_ok σ dash id X now hid
  refine ⟨by rw [h1], ?_⟩
  exact get_found _ dash id now2 _ X hid h2 (parseJson_stringify X)

theorem C1_put_get_round_trip_witness :
    safeDashId (some "abc") = some "abc" ∧
    Json.wfB (Json.obj [("a", Json.num 1)]) = true ∧
    ((handle ⟨"POST", some "abc", false,
          .obj [("state", Json.obj [("a", Json.num 1)])]⟩ "2026-01-01"
          ⟨fun _ => none, [], 0⟩).1.status = 200 ∧
      (handle ⟨"GET", some "abc", false, .null⟩ "2026-01-02"
          ⟨(handle ⟨"POST", some "abc", false,
              .obj [("state", Json.obj [("a", Json.num 1)])]⟩ "2026-01-01"
              ⟨fun _ => none, [], 0⟩).2.store, [], 0⟩).1
        = ⟨200, .obj [("state", Json.obj [("a", Json.num 1)]), ("exists", .bool true)]⟩) :=
  ⟨by decide, by decide,
    C1_put_get_round_trip (fun _ => none) (some "abc") "abc" (Json.obj [("a", Json.num 1)])
      "2026-01-01" "2026-01-02" (by decide) (by decide)⟩

/-- C8: `getFile` treats a 404 backend response as success with
`exists:false` (an absent file delivered by the backend likewise), wraps
every non-success non-404 response as an error carrying the stage, status
code and raw body, and makes exactly one backend call with no automatic
retry. -/
theorem C8_ghGetFile_classification (σ : String → Option GFile)
    (sched : List FetchOutcome) (calls : Nat) (path raw : String) (status : Nat) :
    (ghGetFile ⟨σ, .fail 404 raw :: sched, calls⟩ path).1 = .notFound ∧
    (status ≠ 404 →
      (ghGetFile ⟨σ, .fail status raw :: sched, calls⟩ path).1
        = .err ⟨"github_get", status, raw⟩) ∧
    (σ path = none → (ghGetFile ⟨σ, .deliver :: sched, calls⟩ path).1 = .notFound) ∧
    (∀ o : FetchOutcome,
      (ghGetFile ⟨σ, o :: sched, calls⟩ path).2.calls = calls + 1 ∧
      (ghGetFile ⟨σ, o :: sched, calls⟩ path).2.sched = sched) := by
  refine ⟨by simp [ghGetFile, popOutcome], ?_, ?_, ?_⟩
  · intro h
    simp [ghGetFile, popOutcome, h]
  · intro h
    simp [ghGetFile, popOutcome, h]
  · intro o
    cases o with
    | deliver =>
      cases h : σ path <;> simp [ghGetFile, popOutcome, h]
    | fail s r =>
      by_cases h : s = 404 <;> simp [ghGetFile, popOutcome, h]

theorem C8_ghGetFile_classification_witness :
    (ghGetFile ⟨(fun _ => none), [.fail 500 "boom"], 0⟩ "p").1
      = .err ⟨"github_get", 500, "boom"⟩ ∧
    (ghGetFile ⟨(fun _ => none), [.deliver], 0⟩ "p").1 = .notFound :=
  ⟨(C8_ghGetFile_classification (fun _ => none) [] 0 "p" "boom" 500).2.1 (by decide),
   (C8_ghGetFile_classification (fun _ => none) [] 0 "p" "boom" 500).2.2.1 rfl⟩

/-- C7: `delete` on an id whose document does not exist answers 200 with
`{ok:true, deleted:false}`, leaves the store untouched, and performs exactly
one backend call (the existence check) — no delete and no manifest write. -/
theorem C7_idempotent_delete (σ : String → Option GFile) (dash : Option String)
    (id now : String) (hid : safeDashId dash = some id)
    (hdoc : σ (dashPath id) = none) :
    (handle ⟨"DELETE", dash, false, .null⟩ now ⟨σ, [], 0⟩).1
      = ⟨200, .obj [("ok", .bool true), ("deleted", .bool false)]⟩ ∧
    (handle ⟨"DELETE", dash, false, .null⟩ now ⟨σ, [], 0⟩).2.store = σ ∧
    (handle ⟨"DELETE", dash, false, .null⟩ now ⟨σ, [], 0⟩).2.calls = 1 := by
  refine ⟨?_, ?_, ?_⟩ <;> simp [handle, hid, ghGetFile, popOutcome, hdoc]

theorem C7_idempotent_delete_witness :
    (handle ⟨"DELETE", some "zzz", false, .null⟩ "t" ⟨fun _ => none, [], 0⟩).1
      = ⟨200, .obj [("ok", .bool true), ("deleted", .bool false)]⟩ ∧
    (handle ⟨"DELETE", some "zzz", false, .null⟩ "t" ⟨fun _ => none, [], 0⟩).2.store
      = (fun _ => none) ∧
    (handle ⟨"DELETE", some "zzz", false, .null⟩ "t" ⟨fun _ => none, [], 0⟩).2.calls = 1 :=
  C7_idempotent_delete (fun _ => none) (some "zzz") "zzz" "t" (by decide) rfl

/-- C10: when a dashboard document exists but its stored content is not
valid JSON, `get(id)` does not recover the way the manifest loader does: the
parse failure reaches the catch-all handler and the request fails with
status 500 (`Unhandled`) — not 502 and not a successful empty result. -/
theorem C10_corrupt_document_500 (σ : String → Option GFile) (dash : Option String)
    (id now : String) (f : GFile) (hid : safeDashId dash = some id)
    (hdoc : σ (dashPath id) = some f) (hbad : parseJson f.content = none) :
    (handle ⟨"GET", dash, false, .null⟩ now ⟨σ, [], 0⟩).1 = ⟨500, unhandledJson⟩ := by
  simp [handle, hid, ghGetFile, popOutcome, hdoc, fromBase64_toBase64, stripNL_toBase64, hbad]

theorem C10_corrupt_document_500_witness :
    (handle ⟨"GET", some "abc", false, .null⟩ "t"
        ⟨(fun p => if p = "data/dashboards/abc.json" then some ⟨"not json", "s1"⟩ else none),
          [], 0⟩).1
      = ⟨500, unhandledJson⟩ :=
  C10_corrupt_document_500
    (fun p => if p = "data/dashboards/abc.json" then some ⟨"not json", "s1"⟩ else none)
    (some "abc") "abc" "t" ⟨"not json", "s1"⟩ (by decide) (by decide) (by decide)

/-- C5: when the manifest file exists but its content is not a valid JSON
array (unparsable, or valid JSON that is not an array), loading the manifest
yields the empty entry list while still reporting the file's existing
content hash; `list()` answers 200 with an empty dashboard list rather than
an error; and a subsequent `put` still succeeds and replaces the corrupt
manifest with a valid one — under the backend's compare-and-swap this is
only possible because the save supplied the reported hash as its
precondition rather than blind-overwriting. -/
theorem C5_manifest_corruption_recovery (σ : String → Option GFile) (f : GFile)
    (dash : Option String) (id : String) (X : Json) (now now2 : String)
    (hman : σ MANIFEST_PATH = some f)
    (hbad : ∀ xs, parseJson f.content ≠ some (.arr xs))
    (hid : safeDashId dash = some id) :
    (loadManifest ⟨σ, [], 0⟩).1 = .ok true (some f.sha) [] ∧
    (handle ⟨"GET", none, true, .null⟩ now ⟨σ, [], 0⟩).1
      = ⟨200, .obj [("dashboards", .arr [])]⟩ ∧
    (handle ⟨"POST", dash, false, .obj [("state", X)]⟩ now2 ⟨σ, [], 0⟩).1.status = 200 ∧
    (handle ⟨"POST", dash, false, .obj [("state", X)]⟩ now2 ⟨σ, [], 0⟩).2.store MANIFEST_PATH
      = some ⟨Json.stringify (.arr [.obj (mkEntry id (deriveName X) now2)]),
              shaOf (Json.stringify (.arr [.obj (mkEntry id (deriveName X) now2)]))⟩ := by
  have hne1 := manifest_ne_dashPath id
  have hne2 := dashPath_ne_manifest id
  have hload : ∀ xs, parseJson f.content = some (Json.arr xs) → False := fun xs h => hbad xs h
  cases hp : parseJson f.content with
  | none =>
    cases hdoc : σ (dashPath id) with
    | none =>
      refine ⟨?_, ?_, ?_, ?_⟩ <;>
        simp [handle, hid, loadManifest, saveManifest, ghGetFile, ghPutFile, popOutcome,
          extractState, upsertEntry, hman, hdoc, hp, fromBase64_toBase64, stripNL_toBase64,
          storeSet_same, storeSet_other, hne1, hne2]
    | some fdoc =>
      refine ⟨?_, ?_, ?_, ?_⟩ <;>
        simp [handle, hid, loadManifest, saveManifest, ghGetFile, ghPutFile, popOutcome,
          extractState, upsertEntry, hman, hdoc, hp, fromBase64_toBase64, stripNL_toBase64,
          storeSet_same, storeSet_other, hne1, hne2]
  | some j =>
    cases j with
    | arr xs => exact absurd hp (hbad xs)
    | null =>
      cases hdoc : σ (dashPath id) with
      | none =>
        refine ⟨?_, ?_, ?_, ?_⟩ <;>
          simp [handle, hid, loadManifest, saveManifest, ghGetFile, ghPutFile, popOutcome,
            extractState, upsertEntry, hman, hdoc, hp, fromBase64_toBase64, stripNL_toBase64,
            storeSet_same, storeSet_other, hne1, hne2]
      | some fdoc =>
        refine ⟨?_, ?_, ?_, ?_⟩ <;>
          simp [handle, hid, loadManifest, saveManifest, ghGetFile, ghPutFile, popOutcome,
            extractState, upsertEntry, hman, hdoc, hp, fromBase64_toBase64, stripNL_toBase64,
            storeSet_same, storeSet_other, hne1, hne2]
    | bool b =>
      cases hdoc : σ (dashPath id) with
      | none =>
        refine ⟨?_, ?_, ?_, ?_⟩ <;>
          simp [handle, hid, loadManifest, saveManifest, ghGetFile, ghPutFile, popOutcome,
            extractState, upsertEntry, hman, hdoc, hp, fromBase64_toBase64, stripNL_toBase64,
            storeSet_same, storeSet_other, hne1, hne2]
      | some fdoc =>
        refine ⟨?_, ?_, ?_, ?_⟩ <;>
          simp [handle, hid, loadManifest, saveManifest, ghGetFile, ghPutFile, popOutcome,
            extractState, upsertEntry, hman, hdoc, hp, fromBase64_toBase64, stripNL_toBase64,
            storeSet_same, storeSet_other, hne1, hne2]
    | num i =>
      cases hdoc : σ (dashPath id) with
      | none =>
        refine ⟨?_, ?_, ?_, ?_⟩ <;>
          simp [handle, hid, loadManifest, saveManifest, ghGetFile, ghPutFile, popOutcome,
            extractState, upsertEntry, hman, hdoc, hp, fromBase64_toBase64, stripNL_toBase64,
            storeSet_same, storeSet_other, hne1, hne2]
      | some fdoc =>
        refine ⟨?_, ?_, ?_, ?_⟩ <;>
          simp [handle, hid, loadManifest, saveManifest, ghGetFile, ghPutFile, popOutcome,
            extractState, upsertEntry, hman, hdoc, hp, fromBase64_toBase64, stripNL_toBase64,
            storeSet_same, storeSet_other, hne1, hne2]
    | str s =>
      cases hdoc : σ (dashPath id) with
      | none =>
        refine ⟨?_, ?_, ?_, ?_⟩ <;>
          simp [handle, hid, loadManifest, saveManifest, ghGetFile, ghPutFile, popOutcome,
            extractState, upsertEntry, hman, hdoc, hp, fromBase64_toBase64, stripNL_toBase64,
            storeSet_same, storeSet_other, hne1, hne2]
      | some fdoc =>
        refine ⟨?_, ?_, ?_, ?_⟩ <;>
          simp [handle, hid, loadManifest, saveManifest, ghGetFile, ghPutFile, popOutcome,
            extractState, upsertEntry, hman, hdoc, hp, fromBase64_toBase64, stripNL_toBase64,
            storeSet_same, storeSet_other, hne1, hne2]
    | obj ms =>
      cases hdoc : σ (dashPath id) with
      | none =>
        refine ⟨?_, ?_, ?_, ?_⟩ <;>
          simp [handle, hid, loadManifest, saveManifest, ghGetFile, ghPutFile, popOutcome,
            extractState, upsertEntry, hman, hdoc, hp, fromBase64_toBase64, stripNL_toBase64,
            storeSet_same, storeSet_other, hne1, hne2]
      | some fdoc =>
        refine ⟨?_, ?_, ?_, ?_⟩ <;>
          simp [handle, hid, loadManifest, saveManifest, ghGetFile, ghPutFile, popOutcome,
            extractState, upsertEntry, hman, hdoc, hp, fromBase64_toBase64, stripNL_toBase64,
            storeSet_same, storeSet_other, hne1, hne2]

theorem C5_manifest_corruption_recovery_witness :
    (loadManifest ⟨(fun p => if p = "data/manifest.json"
        then some ⟨"not [json", "shaX"⟩ else none), [], 0⟩).1
      = .ok true (some "shaX") [] ∧
    (handle ⟨"GET", none, true, .null⟩ "t1"
        ⟨(fun p => if p = "data/manifest.json" then some ⟨"not [json", "shaX"⟩ else none),
          [], 0⟩).1
      = ⟨200, .obj [("dashboards", .arr [])]⟩ ∧
    (handle ⟨"POST", some "abc", false, .obj [("state", Json.num 7)]⟩ "t2"
        ⟨(fun p => if p = "data/manifest.json" then some ⟨"not [json", "shaX"⟩ else none),
          [], 0⟩).1.status = 200 ∧
    (handle ⟨"POST", some "abc", false, .obj [("state", Json.num 7)]⟩ "t2"
        ⟨(fun p => if p = "data/manifest.json" then some ⟨"not [json", "shaX"⟩ else none),
          [], 0⟩).2.store MANIFEST_PATH
      = some ⟨Json.stringify (.arr [.obj (mkEntry "abc" (deriveName (Json.num 7)) "t2")]),
              shaOf (Json.stringify
                (.arr [.obj (mkEntry "abc" (deriveName (Json.num 7)) "t2")]))⟩ :=
  C5_manifest_corruption_recovery
    (fun p => if p = "data/manifest.json" then some ⟨"not [json", "shaX"⟩ else none)
    ⟨"not [json", "shaX"⟩ (some "abc") "abc" (Json.num 7) "t1" "t2"
    (by decide)
    (by
      intro xs h
      rw [(by decide : parseJson "not [json" = none)] at h
      exact Option.noConfusion h)
    (by decide)

/-- The spec's id format, stated from its words: after trimming, a valid
DashboardId is a 3-to-80-character string of letters, digits, hyphens and
underscores. -/
def specValidId (raw : Option String) : Prop :=
  3 ≤ (jsTrim (raw.getD "")).length ∧ (jsTrim (raw.getD "")).length ≤ 80 ∧
    ∀ c ∈ (jsTrim (raw.getD "")).data, isIdChar c = true

theorem specValid_of_safeDashId (dash : Option String) (id : String)
    (h : safeDashId dash = some id) : specValidId dash := by
  unfold safeDashId at h
  by_cases he : (jsTrim (dash.getD "")).data = []
  · rw [if_pos he] at h
    exact Option.noConfusion h
  · rw [if_neg he] at h
    by_cases hc : 3 ≤ (jsTrim (dash.getD "")).data.length ∧
        (jsTrim (dash.getD "")).data.length ≤ 80 ∧
        (jsTrim (dash.getD "")).data.all isIdChar = true
    · exact ⟨hc.1, hc.2.1, fun c hc' => List.all_eq_true.mp hc.2.2 c hc'⟩
    · rw [if_neg (by simpa using hc)] at h
      exact Option.noConfusion h

theorem safeDashId_of_specValid (dash : Option String) (h : specValidId dash) :
    safeDashId dash = some (jsTrim (dash.getD "")) := by
  obtain ⟨h3, h8, hall⟩ := h
  have hlen : (jsTrim (dash.getD "")).length = (jsTrim (dash.getD "")).data.length := rfl
  rw [hlen] at h3 h8
  unfold safeDashId
  have he : ¬ (jsTrim (dash.getD "")).data = [] := by
    intro he
    rw [he] at h3
    simp at h3
  rw [if_neg he, if_pos ⟨h3, h8, List.all_eq_true.mpr hall⟩]

/-- C6: an id that is not (after trimming) a 3-to-80-character string of
letters, digits, hyphens and underscores fails validation, and `get`, `put`
and `delete` on it answer 400 performing zero backend calls and leaving the
store untouched; conversely an id matching that format passes validation. -/
theorem C6_id_validation (dash : Option String) (now : String)
    (σ : String → Option GFile) (body : Json) :
    (¬ specValidId dash →
      safeDashId dash = none ∧
      ∀ m, m = "GET" ∨ m = "POST" ∨ m = "DELETE" →
        (handle ⟨m, dash, false, body⟩ now ⟨σ, [], 0⟩).1
          = ⟨400, errJson "Missing/invalid dash id"⟩ ∧
        (handle ⟨m, dash, false, body⟩ now ⟨σ, [], 0⟩).2.store = σ ∧
        (handle ⟨m, dash, false, body⟩ now ⟨σ, [], 0⟩).2.calls = 0) ∧
    (specValidId dash → safeDashId dash = some (jsTrim (dash.getD ""))) := by
  constructor
  · intro hnv
    have hn : safeDashId dash = none := by
      cases h : safeDashId dash with
      | none => rfl
      | some i => exact absurd (specValid_of_safeDashId dash i h) hnv
    refine ⟨hn, ?_⟩
    rintro m (rfl | rfl | rfl) <;>
      exact ⟨by simp [handle, hn], by simp [handle, hn], by simp [handle, hn]⟩
  · exact safeDashId_of_specValid dash

theorem C6_id_validation_witness :
    (safeDashId (some "ab") = none ∧
      (handle ⟨"POST", some "ab", false, .null⟩ "t" ⟨fun _ => none, [], 0⟩).1
        = ⟨400, errJson "Missing/invalid dash id"⟩) ∧
    safeDashId (some "bad id") = none ∧
    safeDashId (some "abc") = some (jsTrim ((some "abc").getD "")) := by
  have hnv1 : ¬ specValidId (some "ab") := by
    intro hv
    exact absurd hv.1 (by decide)
  have hnv2 : ¬ specValidId (some "bad id") := by
    intro hv
    have := hv.2.2 ' ' (by decide)
    exact absurd this (by decide)
  have hv3 : specValidId (some "abc") := ⟨by decide, by decide, by decide⟩
  exact ⟨⟨((C6_id_validation (some "ab") "t" (fun _ => none) .null).1 hnv1).1,
      (((C6_id_validation (some "ab") "t" (fun _ => none) .null).1 hnv1).2 "POST"
        (Or.inr (Or.inl rfl))).1⟩,
    ((C6_id_validation (some "bad id") "t" (fun _ => none) .null).1 hnv2).1,
    (C6_id_validation (some "abc") "t" (fun _ => none) .null).2 hv3⟩

/-- C4 counterexample: deleting an existing document succeeds (200,
`ok:true`) but the response body carries **no** `deleted` field — source
line 199 answers `{ok:true, commitUrl}` — so the claim that every
successful DELETE response carries `deleted` alongside `ok` and the commit
reference is false. -/
theorem C4_deleted_field_counterexample :
    (handle ⟨"DELETE", some "abc", false, .null⟩ "t"
        ⟨(fun p => if p = "data/dashboards/abc.json" then some ⟨"null", "s1"⟩ else none),
          [], 0⟩).1.status = 200 ∧
    (handle ⟨"DELETE", some "abc", false, .null⟩ "t"
        ⟨(fun p => if p = "data/dashboards/abc.json" then some ⟨"null", "s1"⟩ else none),
          [], 0⟩).1.body.getProp "ok" = some (.bool true) ∧
    (handle ⟨"DELETE", some "abc", false, .null⟩ "t"
        ⟨(fun p => if p = "data/dashboards/abc.json" then some ⟨"null", "s1"⟩ else none),
          [], 0⟩).1.body.getProp "deleted" = none := by
  decide

/-- C4 (amended): `delete(id)` on an existing document answers 200 with
exactly `{ok:true, commitUrl}` — the commit reference but no `deleted`
field; only the document-absent branch carries `deleted:false`. -/
theorem C4_delete_success_no_deleted_field (σ : String → Option GFile)
    (dash : Option String) (id now : String) (f : GFile)
    (hid : safeDashId dash = some id) (hdoc : σ (dashPath id) = some f) :
    (handle ⟨"DELETE", dash, false, .null⟩ now ⟨σ, [], 0⟩).1.status = 200 ∧
    (handle ⟨"DELETE", dash, false, .null⟩ now ⟨σ, [], 0⟩).1.body
      = .obj [("ok", .bool true), ("commitUrl", .str (commitUrlOf f.sha))] ∧
    (handle ⟨"DELETE", dash, false, .null⟩ now ⟨σ, [], 0⟩).1.body.getProp "deleted"
      = none := by
  have hne1 := manifest_ne_dashPath id
  cases hman : σ MANIFEST_PATH with
  | none =>
    refine ⟨?_, ?_, ?_⟩ <;>
      simp [handle, hid, ghGetFile, ghDeleteFile, loadManifest, saveManifest, ghPutFile,
        popOutcome, hdoc, hman, fromBase64_toBase64, stripNL_toBase64,
        storeDel_other, storeDel_same, hne1, Json.getProp]
  | some fm =>
    cases hp : parseJson fm.content with
    | none =>
      refine ⟨?_, ?_, ?_⟩ <;>
        simp [handle, hid, ghGetFile, ghDeleteFile, loadManifest, saveManifest, ghPutFile,
          popOutcome, hdoc, hman, hp, fromBase64_toBase64, stripNL_toBase64,
          storeDel_other, storeDel_same, hne1, Json.getProp]
    | some j =>
      cases j <;> (refine ⟨?_, ?_, ?_⟩ <;>
        simp [handle, hid, ghGetFile, ghDeleteFile, loadManifest, saveManifest, ghPutFile,
          popOutcome, hdoc, hman, hp, fromBase64_toBase64, stripNL_toBase64,
          storeDel_other, storeDel_same, hne1, Json.getProp])

theorem C4_delete_success_no_deleted_field_witness :
    (handle ⟨"DELETE", some "abc", false, .null⟩ "t"
        ⟨(fun p => if p = "data/dashboards/abc.json" then some ⟨"null", "s1"⟩ else none),
          [], 0⟩).1.status = 200 ∧
    (handle ⟨"DELETE", some "abc", false, .null⟩ "t"
        ⟨(fun p => if p = "data/dashboards/abc.json" then some ⟨"null", "s1"⟩ else none),
          [], 0⟩).1.body
      = .obj [("ok", .bool true), ("commitUrl", .str (commitUrlOf "s1"))] ∧
    (handle ⟨"DELETE", some "abc", false, .null⟩ "t"
        ⟨(fun p => if p = "data/dashboards/abc.json" then some ⟨"null", "s1"⟩ else none),
          [], 0⟩).1.body.getProp "deleted" = none :=
  C4_delete_success_no_deleted_field
    (fun p => if p = "data/dashboards/abc.json" then some ⟨"null", "s1"⟩ else none)
    (some "abc") "abc" "t" ⟨"null", "s1"⟩ (by decide) (by decide)

/-- A delivered manifest load never errs: it answers some entry list. -/
theorem loadManifest_deliver (σ : String → Option GFile) (sched : List FetchOutcome)
    (calls : Nat) :
    ∃ fnd msha list, loadManifest ⟨σ, .deliver :: sched, calls⟩
      = (.ok fnd msha list, ⟨σ, sched, calls + 1⟩) := by
  cases hman : σ MANIFEST_PATH with
  | none =>
    exact ⟨false, none, [], by simp [loadManifest, ghGetFile, popOutcome, hman]⟩
  | some f =>
    cases hp : parseJson f.content with
    | none =>
      exact ⟨true, some f.sha, [], by
        simp [loadManifest, ghGetFile, popOutcome, hman, fromBase64_toBase64,
          stripNL_toBase64, hp]⟩
    | some j =>
      cases j with
      | arr xs =>
        exact ⟨true, some f.sha, xs, by
          simp [loadManifest, ghGetFile, popOutcome, hman, fromBase64_toBase64,
            stripNL_toBase64, hp]⟩
      | null =>
        exact ⟨true, some f.sha, [], by
          simp [loadManifest, ghGetFile, popOutcome, hman, fromBase64_toBase64,
            stripNL_toBase64, hp]⟩
      | bool b =>
        exact ⟨true, some f.sha, [], by
          simp [loadManifest, ghGetFile, popOutcome, hman, fromBase64_toBase64,
            stripNL_toBase64, hp]⟩
      | num i =>
        exact ⟨true, some f.sha, [], by
          simp [loadManifest, ghGetFile, popOutcome, hman, fromBase64_toBase64,
            stripNL_toBase64, hp]⟩
      | str s =>
        exact ⟨true, some f.sha, [], by
          simp [loadManifest, ghGetFile, popOutcome, hman, fromBase64_toBase64,
            stripNL_toBase64, hp]⟩
      | obj ms =>
        exact ⟨true, some f.sha, [], by
          simp [loadManifest, ghGetFile, popOutcome, hman, fromBase64_toBase64,
            stripNL_toBase64, hp]⟩

/-- C3: on `delete(id)` of an existing document, once the document delete
has succeeded the manifest steps are best-effort: a manifest load failure or
a manifest save failure is absorbed and the caller still receives 200 with
the delete's commit reference (and the document is gone); only a failure of
the document read or of the document delete itself surfaces as a 502. -/
theorem C3_delete_absorbs_manifest_failure (σ : String → Option GFile)
    (dash : Option String) (id now raw : String) (f : GFile) (status : Nat)
    (hid : safeDashId dash = some id) (hdoc : σ (dashPath id) = some f)
    (h404 : status ≠ 404) :
    ((handle ⟨"DELETE", dash, false, .null⟩ now
        ⟨σ, [.deliver, .deliver, .fail status raw], 0⟩).1
        = ⟨200, .obj [("ok", .bool true), ("commitUrl", .str (commitUrlOf f.sha))]⟩ ∧
      (handle ⟨"DELETE", dash, false, .null⟩ now
        ⟨σ, [.deliver, .deliver, .fail status raw], 0⟩).2.store (dashPath id) = none) ∧
    ((handle ⟨"DELETE", dash, false, .null⟩ now
        ⟨σ, [.deliver, .deliver, .deliver, .fail status raw], 0⟩).1
        = ⟨200, .obj [("ok", .bool true), ("commitUrl", .str (commitUrlOf f.sha))]⟩ ∧
      (handle ⟨"DELETE", dash, false, .null⟩ now
        ⟨σ, [.deliver, .deliver, .deliver, .fail status raw], 0⟩).2.store (dashPath id)
        = none) ∧
    ((handle ⟨"DELETE", dash, false, .null⟩ now ⟨σ, [.fail status raw], 0⟩).1
      = ⟨502, errDetails "GitHub GET pre-delete failed" ⟨"github_get", status, raw⟩⟩) ∧
    ((handle ⟨"DELETE", dash, false, .null⟩ now ⟨σ, [.deliver, .fail status raw], 0⟩).1
      = ⟨502, errDetails "GitHub DELETE failed" ⟨"github_delete", status, raw⟩⟩) := by
  have hlf : loadManifest ⟨storeDel σ (dashPath id), [.fail status raw], 2⟩
      = (.err ⟨"github_get", status, raw⟩, ⟨storeDel σ (dashPath id), [], 3⟩) := by
    simp [loadManifest, ghGetFile, popOutcome, h404]
  obtain ⟨fnd, msha, list, hm⟩ :=
    loadManifest_deliver (storeDel σ (dashPath id)) [.fail status raw] 2
  refine ⟨⟨?_, ?_⟩, ⟨?_, ?_⟩, ?_, ?_⟩ <;>
    simp [handle, hid, ghGetFile, ghDeleteFile, saveManifest, ghPutFile,
      popOutcome, hdoc, hm, hlf, h404, fromBase64_toBase64, stripNL_toBase64,
      storeDel_same, storeDel_other]

theorem C3_delete_absorbs_manifest_failure_witness :
    ((handle ⟨"DELETE", some "abc", false, .null⟩ "t"
        ⟨(fun p => if p = "data/dashboards/abc.json" then some ⟨"null", "s1"⟩ else none),
          [.deliver, .deliver, .fail 500 "boom"], 0⟩).1
        = ⟨200, .obj [("ok", .bool true), ("commitUrl", .str (commitUrlOf "s1"))]⟩ ∧
      (handle ⟨"DELETE", some "abc", false, .null⟩ "t"
        ⟨(fun p => if p = "data/dashboards/abc.json" then some ⟨"null", "s1"⟩ else none),
          [.deliver, .deliver, .fail 500 "boom"], 0⟩).2.store
          (dashPath "abc") = none) ∧
    ((handle ⟨"DELETE", some "abc", false, .null⟩ "t"
        ⟨(fun p => if p = "data/dashboards/abc.json" then some ⟨"null", "s1"⟩ else none),
          [.deliver, .deliver, .deliver, .fail 500 "boom"], 0⟩).1
        = ⟨200, .obj [("ok", .bool true), ("commitUrl", .str (commitUrlOf "s1"))]⟩ ∧
      (handle ⟨"DELETE", some "abc", false, .null⟩ "t"
        ⟨(fun p => if p = "data/dashboards/abc.json" then some ⟨"null", "s1"⟩ else none),
          [.deliver, .deliver, .deliver, .fail 500 "boom"], 0⟩).2.store
          (dashPath "abc") = none) ∧
    ((handle ⟨"DELETE", some "abc", false, .null⟩ "t"
        ⟨(fun p => if p = "data/dashboards/abc.json" then some ⟨"null", "s1"⟩ else none),
          [.fail 500 "boom"], 0⟩).1
      = ⟨502, errDetails "GitHub GET pre-delete failed" ⟨"github_get", 500, "boom"⟩⟩) ∧
    ((handle ⟨"DELETE", some "abc", false, .null⟩ "t"
        ⟨(fun p => if p = "data/dashboards/abc.json" then some ⟨"null", "s1"⟩ else none),
          [.deliver, .fail 500 "boom"], 0⟩).1
      = ⟨502, errDetails "GitHub DELETE failed" ⟨"github_delete", 500, "boom"⟩⟩) :=
  C3_delete_absorbs_manifest_failure
    (fun p => if p = "data/dashboards/abc.json" then some ⟨"null", "s1"⟩ else none)
    (some "abc") "abc" "t" "boom" ⟨"null", "s1"⟩ 500 (by decide) (by decide) (by decide)

/-- C2: in `put(id, state)` the manifest steps run only after the document
write has succeeded — if the document write fails, the request ends with 502
after exactly two backend calls and an untouched store — and when a manifest
step (load or save) fails after the document write committed, the caller
receives a 502 while the document write is not rolled back: `get(id)`
afterwards observes the new state. -/
theorem C2_put_reports_manifest_failure_without_rollback (σ : String → Option GFile)
    (dash : Option String) (id : String) (X : Json) (now now2 raw : String)
    (status : Nat) (hid : safeDashId dash = some id) (h404 : status ≠ 404) :
    ((handle ⟨"POST", dash, false, .obj [("state", X)]⟩ now
        ⟨σ, [.deliver, .fail status raw], 0⟩).1
        = ⟨502, errDetails "GitHub PUT failed" ⟨"github_put", status, raw⟩⟩ ∧
      (handle ⟨"POST", dash, false, .obj [("state", X)]⟩ now
        ⟨σ, [.deliver, .fail status raw], 0⟩).2.store = σ ∧
      (handle ⟨"POST", dash, false, .obj [("state", X)]⟩ now
        ⟨σ, [.deliver, .fail status raw], 0⟩).2.calls = 2) ∧
    ((handle ⟨"POST", dash, false, .obj [("state", X)]⟩ now
        ⟨σ, [.deliver, .deliver, .fail status raw], 0⟩).1
        = ⟨502, errDetails "Manifest GET failed" ⟨"github_get", status, raw⟩⟩ ∧
      (handle ⟨"POST", dash, false, .obj [("state", X)]⟩ now
        ⟨σ, [.deliver, .deliver, .fail status raw], 0⟩).2.store (dashPath id)
        = some ⟨Json.stringify X, shaOf (Json.stringify X)⟩ ∧
      (handle ⟨"GET", dash, false, .null⟩ now2
        ⟨(handle ⟨"POST", dash, false, .obj [("state", X)]⟩ now
            ⟨σ, [.deliver, .deliver, .fail status raw], 0⟩).2.store, [], 0⟩).1
        = ⟨200, .obj [("state", X), ("exists", .bool true)]⟩) ∧
    ((handle ⟨"POST", dash, false, .obj [("state", X)]⟩ now
        ⟨σ, [.deliver, .deliver, .deliver, .fail status raw], 0⟩).1
        = ⟨502, errDetails "Manifest PUT failed" ⟨"github_put", status, raw⟩⟩ ∧
      (handle ⟨"POST", dash, false, .obj [("state", X)]⟩ now
        ⟨σ, [.deliver, .deliver, .deliver, .fail status raw], 0⟩).2.store (dashPath id)
        = some ⟨Json.stringify X, shaOf (Json.stringify X)⟩ ∧
      (handle ⟨"GET", dash, false, .null⟩ now2
        ⟨(handle ⟨"POST", dash, false, .obj [("state", X)]⟩ now
            ⟨σ, [.deliver, .deliver, .deliver, .fail status raw], 0⟩).2.store, [], 0⟩).1
        = ⟨200, .obj [("state", X), ("exists", .bool true)]⟩) := by
  have hne1 := manifest_ne_dashPath id
  have hne2 := dashPath_ne_manifest id
  have hlf : loadManifest
      ⟨storeSet σ (dashPath id) ⟨Json.stringify X, shaOf (Json.stringify X)⟩,
        [.fail status raw], 2⟩
      = (.err ⟨"github_get", status, raw⟩,
          ⟨storeSet σ (dashPath id) ⟨Json.stringify X, shaOf (Json.stringify X)⟩, [], 3⟩) := by
    simp [loadManifest, ghGetFile, popOutcome, h404]
  obtain ⟨fnd, msha, list, hm⟩ :=
    loadManifest_deliver
      (storeSet σ (dashPath id) ⟨Json.stringify X, shaOf (Json.stringify X)⟩)
      [.fail status raw] 2
  cases hdoc : σ (dashPath id) with
  | none =>
    have hst2 : (handle ⟨"POST", dash, false, .obj [("state", X)]⟩ now
        ⟨σ, [.deliver, .deliver, .fail status raw], 0⟩).2.store (dashPath id)
        = some ⟨Json.stringify X, shaOf (Json.stringify X)⟩ := by
      simp [handle, hid, ghGetFile, ghPutFile, saveManifest, popOutcome, extractState,
        hdoc, hlf, hm, h404, fromBase64_toBase64, stripNL_toBase64,
        storeSet_same, storeSet_other, hne1, hne2]
    have hst3 : (handle ⟨"POST", dash, false, .obj [("state", X)]⟩ now
        ⟨σ, [.deliver, .deliver, .deliver, .fail status raw], 0⟩).2.store (dashPath id)
        = some ⟨Json.stringify X, shaOf (Json.stringify X)⟩ := by
      simp [handle, hid, ghGetFile, ghPutFile, saveManifest, popOutcome, extractState,
        hdoc, hlf, hm, h404, fromBase64_toBase64, stripNL_toBase64,
        storeSet_same, storeSet_other, hne1, hne2]
    refine ⟨⟨?_, ?_, ?_⟩, ⟨?_, hst2,
        get_found _ dash id now2 _ X hid hst2 (parseJson_stringify X)⟩,
      ⟨?_, hst3, get_found _ dash id now2 _ X hid hst3 (parseJson_stringify X)⟩⟩ <;>
      simp [handle, hid, ghGetFile, ghPutFile, saveManifest, popOutcome, extractState,
        hdoc, hlf, hm, h404, fromBase64_toBase64, stripNL_toBase64,
        storeSet_same, storeSet_other, hne1, hne2]
  | some fdoc =>
    have hst2 : (handle ⟨"POST", dash, false, .obj [("state", X)]⟩ now
        ⟨σ, [.deliver, .deliver, .fail status raw], 0⟩).2.store (dashPath id)
        = some ⟨Json.stringify X, shaOf (Json.stringify X)⟩ := by
      simp [handle, hid, ghGetFile, ghPutFile, saveManifest, popOutcome, extractState,
        hdoc, hlf, hm, h404, fromBase64_toBase64, stripNL_toBase64,
        storeSet_same, storeSet_other, hne1, hne2]
    have hst3 : (handle ⟨"POST", dash, false, .obj [("state", X)]⟩ now
        ⟨σ, [.deliver, .deliver, .deliver, .fail status raw], 0⟩).2.store (dashPath id)
        = some ⟨Json.stringify X, shaOf (Json.stringify X)⟩ := by
      simp [handle, hid, ghGetFile, ghPutFile, saveManifest, popOutcome, extractState,
        hdoc, hlf, hm, h404, fromBase64_toBase64, stripNL_toBase64,
        storeSet_same, storeSet_other, hne1, hne2]
    refine ⟨⟨?_, ?_, ?_⟩, ⟨?_, hst2,
        get_found _ dash id now2 _ X hid hst2 (parseJson_stringify X)⟩,
      ⟨?_, hst3, get_found _ dash id now2 _ X hid hst3 (parseJson_stringify X)⟩⟩ <;>
      simp [handle, hid, ghGetFile, ghPutFile, saveManifest, popOutcome, extractState,
        hdoc, hlf, hm, h404, fromBase64_toBase64, stripNL_toBase64,
        storeSet_same, storeSet_other, hne1, hne2]

theorem C2_put_reports_manifest_failure_without_rollback_witness :
    (handle ⟨"POST", some "abc", false, .obj [("state", Json.num 5)]⟩ "t1"
        ⟨(fun _ => none), [.deliver, .fail 500 "boom"], 0⟩).1
      = ⟨502, errDetails "GitHub PUT failed" ⟨"github_put", 500, "boom"⟩⟩ ∧
    (handle ⟨"POST", some "abc", false, .obj [("state", Json.num 5)]⟩ "t1"
        ⟨(fun _ => none), [.deliver, .deliver, .fail 500 "boom"], 0⟩).1
      = ⟨502, errDetails "Manifest GET failed" ⟨"github_get", 500, "boom"⟩⟩ ∧
    (handle ⟨"GET", some "abc", false, .null⟩ "t2"
        ⟨(handle ⟨"POST", some "abc", false, .obj [("state", Json.num 5)]⟩ "t1"
            ⟨(fun _ => none), [.deliver, .deliver, .fail 500 "boom"], 0⟩).2.store, [], 0⟩).1
      = ⟨200, .obj [("state", Json.num 5), ("exists", .bool true)]⟩ :=
  ⟨((C2_put_reports_manifest_failure_without_rollback (fun _ => none) (some "abc") "abc"
      (Json.num 5) "t1" "t2" "boom" 500 (by decide) (by decide)).1).1,
   ((C2_put_reports_manifest_failure_without_rollback (fun _ => none) (some "abc") "abc"
      (Json.num 5) "t1" "t2" "boom" 500 (by decide) (by decide)).2.1).1,
   ((C2_put_reports_manifest_failure_without_rollback (fun _ => none) (some "abc") "abc"
      (Json.num 5) "t1" "t2" "boom" 500 (by decide) (by decide)).2.1).2.2⟩

/-! ### Manifest uniqueness (C9) -/

/-- At most one entry per id. -/
def uniqueById (l : List Json) : Prop :=
  ∀ s : String, l.countP (fun x => entryMatches x s) ≤ 1

theorem lookup_cons_self (k : String) (v : Json) (fs : List (String × Json)) :
    List.lookup k ((k, v) :: fs) = some v := by
  simp [List.lookup]

theorem lookup_cons_of_ne (a k : String) (v : Json) (fs : List (String × Json))
    (h : a ≠ k) : List.lookup a ((k, v) :: fs) = List.lookup a fs := by
  have hb : (a == k) = false := beq_eq_false_iff_ne.mpr h
  simp only [List.lookup, hb]

theorem lookup_map_set (fs : List (String × Json)) (k : String) (v : Json)
    (h : fs.any (fun p => p.1 = k) = true) :
    List.lookup k (fs.map (fun p => if p.1 = k then (k, v) else p)) = some v := by
  induction fs with
  | nil => simp at h
  | cons p fs ih =>
    obtain ⟨pk, pv⟩ := p
    by_cases hp : pk = k
    · simp only [List.map_cons, if_pos (show (pk, pv).1 = k from hp)]
      exact lookup_cons_self k v _
    · simp only [List.any_cons, Bool.or_eq_true, decide_eq_true_eq] at h
      rcases h with h | h
      · exact absurd h hp
      · simp only [List.map_cons, if_neg (show ¬ (pk, pv).1 = k from hp)]
        rw [lookup_cons_of_ne k pk pv _ (fun he => hp he.symm)]
        exact ih h

theorem lookup_append_single (fs : List (String × Json)) (k : String) (v : Json)
    (h : fs.any (fun p => p.1 = k) = false) :
    List.lookup k (fs ++ [(k, v)]) = some v := by
  induction fs with
  | nil =>
    simp only [List.nil_append]
    exact lookup_cons_self k v []
  | cons p fs ih =>
    obtain ⟨pk, pv⟩ := p
    simp only [List.any_cons, Bool.or_eq_false_iff, decide_eq_false_iff_not] at h
    obtain ⟨h1, h2⟩ := h
    simp only [List.cons_append]
    rw [lookup_cons_of_ne k pk pv _ (fun he => h1 he.symm)]
    exact ih h2

theorem lookup_map_other (fs : List (String × Json)) (k k2 : String) (v : Json)
    (h : k2 ≠ k) :
    List.lookup k2 (fs.map (fun p => if p.1 = k then (k, v) else p)) = List.lookup k2 fs := by
  induction fs with
  | nil => simp
  | cons p fs ih =>
    obtain ⟨pk, pv⟩ := p
    by_cases hp : pk = k
    · simp only [List.map_cons, if_pos (show (pk, pv).1 = k from hp)]
      rw [lookup_cons_of_ne k2 k v _ h, lookup_cons_of_ne k2 pk pv _ (fun he => h (he.trans hp))]
      exact ih
    · simp only [List.map_cons, if_neg (show ¬ (pk, pv).1 = k from hp)]
      by_cases h2 : k2 = pk
      · subst h2
        rw [lookup_cons_self, lookup_cons_self]
      · rw [lookup_cons_of_ne k2 pk pv _ h2, lookup_cons_of_ne k2 pk pv _ h2]
        exact ih

theorem lookup_append_other (fs : List (String × Json)) (k k2 : String) (v : Json)
    (h : k2 ≠ k) :
    List.lookup k2 (fs ++ [(k, v)]) = List.lookup k2 fs := by
  induction fs with
  | nil =>
    simp only [List.nil_append]
    rw [lookup_cons_of_ne k2 k v [] h]
  | cons p fs ih =>
    obtain ⟨pk, pv⟩ := p
    simp only [List.cons_append]
    by_cases h2 : k2 = pk
    · subst h2
      rw [lookup_cons_self, lookup_cons_self]
    · rw [lookup_cons_of_ne k2 pk pv _ h2, lookup_cons_of_ne k2 pk pv _ h2]
      exact ih

theorem lookup_setProp_same (fs : List (String × Json)) (k : String) (v : Json) :
    List.lookup k (setProp fs k v) = some v := by
  unfold setProp
  by_cases h : fs.any (fun p => p.1 = k)
  · rw [if_pos h]
    exact lookup_map_set fs k v h
  · rw [if_neg h]
    exact lookup_append_single fs k v (Bool.eq_false_iff.mpr h)

theorem lookup_setProp_other (fs : List (String × Json)) (k k2 : String) (v : Json)
    (h : k2 ≠ k) : List.lookup k2 (setProp fs k v) = List.lookup k2 fs := by
  unfold setProp
  by_cases hc : fs.any (fun p => p.1 = k)
  · rw [if_pos hc]
    exact lookup_map_other fs k k2 v h
  · rw [if_neg hc]
    exact lookup_append_other fs k k2 v h
theorem objAssign_truthy (x : Json) (e : List (String × Json)) :
    (objAssign x e).truthy = true := by
  cases x <;> simp [objAssign, Json.truthy]

theorem objAssign_mkEntry_id (x : Json) (id : String) (nm : Json) (now : String) :
    (objAssign x (mkEntry id nm now)).getProp "id" = some (Json.str id) := by
  cases x <;>
    simp only [objAssign, mkEntry, List.foldl, Json.getProp] <;>
    first
      | exact lookup_cons_self _ _ _
      | rw [lookup_setProp_other _ _ _ _ (by decide),
          lookup_setProp_other _ _ _ _ (by decide), lookup_setProp_same]

theorem entryMatches_merged (x : Json) (id : String) (nm : Json) (now s : String) :
    entryMatches (objAssign x (mkEntry id nm now)) s = true ↔ s = id := by
  simp only [entryMatches, objAssign_truthy, objAssign_mkEntry_id, Bool.true_and,
    decide_eq_true_eq, Option.some.injEq, Json.str.injEq]
  exact eq_comm

theorem entryMatches_fresh (id : String) (nm : Json) (now s : String) :
    entryMatches (Json.obj (mkEntry id nm now)) s = true ↔ s = id := by
  simp only [entryMatches, Json.truthy, mkEntry, Json.getProp, Bool.true_and,
    decide_eq_true_eq]
  rw [lookup_cons_self]
  simp only [Option.some.injEq, Json.str.injEq]
  exact eq_comm
theorem entryMatches_merged_false (x : Json) (id : String) (nm : Json) (now s : String)
    (h : s ≠ id) : entryMatches (objAssign x (mkEntry id nm now)) s = false := by
  cases he : entryMatches (objAssign x (mkEntry id nm now)) s
  · rfl
  · exact absurd ((entryMatches_merged x id nm now s).mp he) h

theorem upsert_countP_other (id : String) (nm : Json) (now s : String) (h : s ≠ id)
    (l : List Json) :
    (upsertEntry id (mkEntry id nm now) l).countP (fun x => entryMatches x s) ≤
      l.countP (fun x => entryMatches x s) := by
  induction l with
  | nil =>
    have hf : entryMatches (Json.obj (mkEntry id nm now)) s = false := by
      cases he : entryMatches (Json.obj (mkEntry id nm now)) s
      · rfl
      · exact absurd ((entryMatches_fresh id nm now s).mp he) h
    simp [upsertEntry, List.countP_cons, hf]
  | cons x xs ih =>
    cases hm : entryMatches x id with
    | true =>
      rw [upsertEntry, if_pos hm,
        List.countP_cons_of_neg _ _ (by rw [entryMatches_merged_false x id nm now s h]; simp),
        List.countP_cons]
      exact Nat.le_add_right _ _
    | false =>
      rw [upsertEntry, if_neg (by rw [hm]; simp), List.countP_cons, List.countP_cons]
      exact Nat.add_le_add_right ih _

theorem upsert_countP_id (id : String) (nm : Json) (now : String) (l : List Json)
    (hl : l.countP (fun x => entryMatches x id) ≤ 1) :
    (upsertEntry id (mkEntry id nm now) l).countP (fun x => entryMatches x id) ≤ 1 := by
  induction l with
  | nil =>
    rw [upsertEntry, List.countP_cons, List.countP_nil]
    split <;> omega
  | cons x xs ih =>
    cases hm : entryMatches x id with
    | true =>
      have hxs : xs.countP (fun y => entryMatches y id) = 0 := by
        rw [List.countP_cons_of_pos (fun y => entryMatches y id) _ hm] at hl
        omega
      rw [upsertEntry, if_pos hm,
        List.countP_cons_of_pos (fun y => entryMatches y id) _
          ((entryMatches_merged x id nm now id).mpr rfl), hxs]
    | false =>
      have hxs : xs.countP (fun y => entryMatches y id) ≤ 1 := by
        rw [List.countP_cons_of_neg _ _ (by rw [hm]; simp)] at hl
        exact hl
      rw [upsertEntry, if_neg (by rw [hm]; simp),
        List.countP_cons_of_neg _ _ (by rw [hm]; simp)]
      exact ih hxs
theorem upsert_inplace (id : String) (nm : Json) (now : String) (l : List Json)
    (hx : ∃ x ∈ l, entryMatches x id = true) :
    ∃ j, ∃ hj : j < l.length,
      entryMatches (l.get ⟨j, hj⟩) id = true ∧
      upsertEntry id (mkEntry id nm now) l
        = l.set j (objAssign (l.get ⟨j, hj⟩) (mkEntry id nm now)) := by
  induction l with
  | nil => simp at hx
  | cons x xs ih =>
    cases hm : entryMatches x id with
    | true =>
      refine ⟨0, Nat.succ_pos _, hm, ?_⟩
      rw [upsertEntry, if_pos hm]
      rfl
    | false =>
      have hx2 : ∃ y ∈ xs, entryMatches y id = true := by
        rcases hx with ⟨y, hy, hmy⟩
        rcases List.mem_cons.mp hy with rfl | hy2
        · rw [hm] at hmy
          exact absurd hmy (by simp)
        · exact ⟨y, hy2, hmy⟩
      rcases ih hx2 with ⟨j, hj, hmj, heq⟩
      refine ⟨j + 1, Nat.succ_lt_succ hj, hmj, ?_⟩
      rw [upsertEntry, if_neg (by rw [hm]; simp)]
      show x :: upsertEntry id (mkEntry id nm now) xs
        = x :: xs.set j (objAssign (xs.get ⟨j, hj⟩) (mkEntry id nm now))
      rw [heq]

/-- C9: on a manifest entry list that is unique by id, the POST upsert (source
lines 167–175, modelled by `upsertEntry` with the fresh entry `mkEntry`) and
the DELETE filter (source line 195, modelled by `deleteFilter`) each preserve
at-most-one-entry-per-id; and when a matching entry exists, the upsert is a
`List.set` at the first matching index — it rewrites exactly that entry in
place and leaves the positions of all other entries unchanged. -/
theorem C9_manifest_uniqueness (id : String) (nm : Json) (now : String)
    (l : List Json) (hu : uniqueById l) :
    uniqueById (upsertEntry id (mkEntry id nm now) l) ∧
    uniqueById (deleteFilter id l) ∧
    ((∃ x ∈ l, entryMatches x id = true) →
      ∃ j, ∃ hj : j < l.length,
        entryMatches (l.get ⟨j, hj⟩) id = true ∧
        upsertEntry id (mkEntry id nm now) l
          = l.set j (objAssign (l.get ⟨j, hj⟩) (mkEntry id nm now))) := by
  refine ⟨?_, ?_, upsert_inplace id nm now l⟩
  · intro s
    by_cases hs : s = id
    · subst hs
      exact upsert_countP_id s nm now l (hu s)
    · exact le_trans (upsert_countP_other id nm now s hs l) (hu s)
  · intro s
    exact le_trans (List.Sublist.countP_le _ (List.filter_sublist l)) (hu s)

/-- C9 witness: a concrete singleton manifest whose one entry has id `abc` is
unique by id, and both the upsert for `abc` and the delete filter for `abc`
keep it so. -/
theorem C9_manifest_uniqueness_witness :
    uniqueById [Json.obj [("id", Json.str "abc"), ("name", Json.null)]] ∧
    uniqueById (upsertEntry "abc" (mkEntry "abc" (Json.str "N") "t")
      [Json.obj [("id", Json.str "abc"), ("name", Json.null)]]) ∧
    uniqueById (deleteFilter "abc"
      [Json.obj [("id", Json.str "abc"), ("name", Json.null)]]) := by
  have hu : uniqueById [Json.obj [("id", Json.str "abc"), ("name", Json.null)]] := by
    intro s
    cases h : entryMatches (Json.obj [("id", Json.str "abc"), ("name", Json.null)]) s <;>
      simp [List.countP_cons, h]
  exact ⟨hu, (C9_manifest_uniqueness "abc" (Json.str "N") "t" _ hu).1,
    (C9_manifest_uniqueness "abc" (Json.str "N") "t" _ hu).2.1⟩
